import Mathlib

/-!
Verification development for the claude-squad repository.

This file gives a shallow embedding, in Lean 4, of the three core
components of the repository (`src/core/orchestrator.py`,
`src/core/context.py`, `src/core/events.py`) and proves the testable
properties stated in the specification against that embedding.

Modelling conventions:
* Python values stored in opaque `Any` slots (task params, task results,
  context values, event data) are modelled by the JSON-like inductive
  type `Value` (the repository only ever stores JSON-serialisable data
  built from `None`, booleans, ints, strings, lists and dicts there).
* Python dicts are modelled as association lists in insertion order:
  assignment to an existing key replaces in place, assignment to a new
  key appends at the end, exactly like CPython dicts.
* Python floats that hold exact decimal constants (`0.75`, `0.95`,
  relevance scores) are modelled as rationals.
* `datetime.now()` timestamps are modelled by natural numbers supplied
  explicitly by the caller ("now" parameters).
* Exceptions are modelled with `Except String`; `asyncio` concurrency is
  cooperative and the orchestrator joins every wave, so a wave's
  execution is modelled as the list of its tasks executed by the pure
  per-task function, and emitted events are collected in a list.
* Loops whose termination is by a strictly decreasing measure are
  written with an explicit structural fuel argument initialised to a
  provably sufficient bound, so that every definition evaluates by
  kernel reduction.
-/

namespace Squad

/-- JSON-like values: the payloads the repository stores in `Any`-typed
slots (context values, task params/results, event data). -/
inductive Value where
  | vNull : Value
  | vBool : Bool → Value
  | vInt : Int → Value
  | vStr : String → Value
  | vList : List Value → Value
  | vDict : List (String × Value) → Value

mutual

/-- Decidable equality for `Value` (written by hand: `deriving` does not
handle the nested occurrences of `List`). -/
def decEqValue : (a b : Value) → Decidable (a = b)
  | .vNull, .vNull => .isTrue rfl
  | .vNull, .vBool _ => .isFalse (fun h => Value.noConfusion h)
  | .vNull, .vInt _ => .isFalse (fun h => Value.noConfusion h)
  | .vNull, .vStr _ => .isFalse (fun h => Value.noConfusion h)
  | .vNull, .vList _ => .isFalse (fun h => Value.noConfusion h)
  | .vNull, .vDict _ => .isFalse (fun h => Value.noConfusion h)
  | .vBool _, .vNull => .isFalse (fun h => Value.noConfusion h)
  | .vBool x, .vBool y =>
    match decEq x y with
    | .isTrue h => .isTrue (by rw [h])
    | .isFalse h => .isFalse (by intro hh; injection hh; contradiction)
  | .vBool _, .vInt _ => .isFalse (fun h => Value.noConfusion h)
  | .vBool _, .vStr _ => .isFalse (fun h => Value.noConfusion h)
  | .vBool _, .vList _ => .isFalse (fun h => Value.noConfusion h)
  | .vBool _, .vDict _ => .isFalse (fun h => Value.noConfusion h)
  | .vInt _, .vNull => .isFalse (fun h => Value.noConfusion h)
  | .vInt _, .vBool _ => .isFalse (fun h => Value.noConfusion h)
  | .vInt x, .vInt y =>
    match decEq x y with
    | .isTrue h => .isTrue (by rw [h])
    | .isFalse h => .isFalse (by intro hh; injection hh; contradiction)
  | .vInt _, .vStr _ => .isFalse (fun h => Value.noConfusion h)
  | .vInt _, .vList _ => .isFalse (fun h => Value.noConfusion h)
  | .vInt _, .vDict _ => .isFalse (fun h => Value.noConfusion h)
  | .vStr _, .vNull => .isFalse (fun h => Value.noConfusion h)
  | .vStr _, .vBool _ => .isFalse (fun h => Value.noConfusion h)
  | .vStr _, .vInt _ => .isFalse (fun h => Value.noConfusion h)
  | .vStr x, .vStr y =>
    match decEq x y with
    | .isTrue h => .isTrue (by rw [h])
    | .isFalse h => .isFalse (by intro hh; injection hh; contradiction)
  | .vStr _, .vList _ => .isFalse (fun h => Value.noConfusion h)
  | .vStr _, .vDict _ => .isFalse (fun h => Value.noConfusion h)
  | .vList _, .vNull => .isFalse (fun h => Value.noConfusion h)
  | .vList _, .vBool _ => .isFalse (fun h => Value.noConfusion h)
  | .vList _, .vInt _ => .isFalse (fun h => Value.noConfusion h)
  | .vList _, .vStr _ => .isFalse (fun h => Value.noConfusion h)
  | .vList xs, .vList ys =>
    match decEqValueList xs ys with
    | .isTrue h => .isTrue (by rw [h])
    | .isFalse h => .isFalse (by intro hh; injection hh; contradiction)
  | .vList _, .vDict _ => .isFalse (fun h => Value.noConfusion h)
  | .vDict _, .vNull => .isFalse (fun h => Value.noConfusion h)
  | .vDict _, .vBool _ => .isFalse (fun h => Value.noConfusion h)
  | .vDict _, .vInt _ => .isFalse (fun h => Value.noConfusion h)
  | .vDict _, .vStr _ => .isFalse (fun h => Value.noConfusion h)
  | .vDict _, .vList _ => .isFalse (fun h => Value.noConfusion h)
  | .vDict fs, .vDict gs =>
    match decEqValueFields fs gs with
    | .isTrue h => .isTrue (by rw [h])
    | .isFalse h => .isFalse (by intro hh; injection hh; contradiction)

/-- Decidable equality for lists of `Value`. -/
def decEqValueList : (xs ys : List Value) → Decidable (xs = ys)
  | [], [] => .isTrue rfl
  | [], _ :: _ => .isFalse (fun h => List.noConfusion h)
  | _ :: _, [] => .isFalse (fun h => List.noConfusion h)
  | x :: xs, y :: ys =>
    match decEqValue x y, decEqValueList xs ys with
    | .isTrue h1, .isTrue h2 => .isTrue (by rw [h1, h2])
    | .isFalse h1, _ => .isFalse (by intro hh; injection hh; contradiction)
    | _, .isFalse h2 => .isFalse (by intro hh; injection hh; contradiction)

/-- Decidable equality for `Value` dict fields. -/
def decEqValueFields : (xs ys : List (String × Value)) → Decidable (xs = ys)
  | [], [] => .isTrue rfl
  | [], _ :: _ => .isFalse (fun h => List.noConfusion h)
  | _ :: _, [] => .isFalse (fun h => List.noConfusion h)
  | (k1, v1) :: xs, (k2, v2) :: ys =>
    match decEq k1 k2, decEqValue v1 v2, decEqValueFields xs ys with
    | .isTrue h1, .isTrue h2, .isTrue h3 => .isTrue (by rw [h1, h2, h3])
    | .isFalse h1, _, _ =>
      .isFalse (by intro hh; injection hh with hp ht; injection hp; contradiction)
    | _, .isFalse h2, _ =>
      .isFalse (by intro hh; injection hh with hp ht; injection hp; contradiction)
    | _, _, .isFalse h3 =>
      .isFalse (by intro hh; injection hh with hp ht; contradiction)

end

instance : DecidableEq Value := decEqValue

/-- Python truthiness of a `Value` (used by `if duration:` in
`EventMetrics.record` and by `if self.hooks_runner:`). -/
def Value.isTruthy : Value → Bool
  | .vNull => false
  | .vBool b => b
  | .vInt n => n != 0
  | .vStr s => s ≠ ""
  | .vList xs => xs ≠ []
  | .vDict fs => fs ≠ []

/-- Lookup in a `Value.vDict`, i.e. Python `d.get(k)` on the dict. -/
def Value.dictGet : Value → String → Option Value
  | .vDict fs, k => fs.lookup k
  | _, _ => none

/-! ## Python dict as association list -/

/-- Python dict assignment `d[k] = v`: replace in place if the key is
present, else append at the end (CPython insertion order). -/
def alistSet {κ α : Type} [DecidableEq κ] :
    List (κ × α) → κ → α → List (κ × α)
  | [], k, v => [(k, v)]
  | (k1, v1) :: rest, k, v =>
    if k1 = k then (k, v) :: rest else (k1, v1) :: alistSet rest k v

/-- Python `del d[k]`: remove the (unique) binding of `k`. -/
def alistErase {κ α : Type} [DecidableEq κ] :
    List (κ × α) → κ → List (κ × α)
  | [], _ => []
  | (k1, v1) :: rest, k =>
    if k1 = k then rest else (k1, v1) :: alistErase rest k

/-! ## Python `json.dumps` (default arguments: `ensure_ascii=True`,
separators `", "` and `": "`), as used by
`ContextManager.get_token_usage`. -/

/-- Lowercase hexadecimal digit. -/
def hexDigit (n : ℕ) : Char :=
  if n < 10 then Char.ofNat (48 + n) else Char.ofNat (87 + n)

/-- A `\uXXXX` escape for a code unit below `0x10000`. -/
def uEscape (n : ℕ) : String :=
  "\\u" ++ String.mk
    [hexDigit (n / 4096 % 16), hexDigit (n / 256 % 16),
     hexDigit (n / 16 % 16), hexDigit (n % 16)]

/-- Escape of one character inside a JSON string literal, following
CPython `json` with `ensure_ascii=True`: shorthand escapes for the
common control characters, printable ASCII kept, everything else as
`\uXXXX` (with surrogate pairs above the BMP). -/
def escapeJsonChar (c : Char) : String :=
  if c = '"' then "\\\""
  else if c = '\\' then "\\\\"
  else if c = '\n' then "\\n"
  else if c = '\r' then "\\r"
  else if c = '\t' then "\\t"
  else if c.toNat = 8 then "\\b"
  else if c.toNat = 12 then "\\f"
  else if 32 ≤ c.toNat ∧ c.toNat ≤ 126 then String.singleton c
  else if c.toNat < 65536 then uEscape c.toNat
  else
    uEscape (55296 + (c.toNat - 65536) / 1024) ++
      uEscape (56320 + (c.toNat - 65536) % 1024)

/-- JSON string literal for `s`, quotes included. -/
def jsonQuote (s : String) : String :=
  "\"" ++ String.join (s.toList.map escapeJsonChar) ++ "\""

mutual

/-- Serialisation of a `Value`, following `json.dumps` with its default
separators. -/
def dumpValue : Value → String
  | .vNull => "null"
  | .vBool true => "true"
  | .vBool false => "false"
  | .vInt n => toString n
  | .vStr s => jsonQuote s
  | .vList xs => "[" ++ dumpList xs ++ "]"
  | .vDict fs => "\x7b" ++ dumpFields fs ++ "\x7d"

/-- Comma-separated serialisation of the elements of a JSON array. -/
def dumpList : List Value → String
  | [] => ""
  | [x] => dumpValue x
  | x :: y :: rest => dumpValue x ++ ", " ++ dumpList (y :: rest)

/-- Comma-separated serialisation of the fields of a JSON object. -/
def dumpFields : List (String × Value) → String
  | [] => ""
  | [(k, v)] => jsonQuote k ++ ": " ++ dumpValue v
  | (k, v) :: f :: rest =>
    jsonQuote k ++ ": " ++ dumpValue v ++ ", " ++ dumpFields (f :: rest)

end

/-- Python `json.dumps` of a string-keyed dict. -/
def jsonDumpsDict (fs : List (String × Value)) : String :=
  "\x7b" ++ dumpFields fs ++ "\x7d"

/-! ## Orchestrator data model (`src/core/orchestrator.py`) -/

/-- Embeds `TaskStatus` of `orchestrator.py`. -/
inductive TaskStatus where
  | pending : TaskStatus
  | running : TaskStatus
  | completed : TaskStatus
  | failed : TaskStatus
deriving DecidableEq

/-- Embeds the `Task` dataclass of `orchestrator.py`.  Dataclass
equality (used by `t not in wave` in `calculate_waves`) is field-wise,
matching the derived `DecidableEq`. -/
structure Task where
  id : String
  role : String
  action : String
  dependencies : List String := []
  params : List (String × Value) := []
  status : TaskStatus := .pending
  result : Option Value := none
  error : Option String := none
deriving DecidableEq

/-- The body predicate of the wave comprehension in `calculate_waves`:
`all(dep in completed_ids for dep in task.dependencies)`. -/
def depsDone (completed : List String) (t : Task) : Bool :=
  t.dependencies.all fun d => decide (d ∈ completed)

/-- Recursive worker for `ParallelOrchestrator.calculate_waves`: the
`while remaining_tasks` loop, carrying the `completed_ids` accumulator.
The wave comprehension is a `filter`, Python set membership
`dep in completed_ids` is list membership of the accumulated ids, and
`t not in wave` is dataclass (value) equality.  The loop runs at most
`remaining.length` times (every iteration removes at least one task),
so the fuel argument used to make the recursion structural never runs
out when initialised as in `calculate_waves`; the zero-fuel arm is
unreachable from `calculate_waves` (`wavesGo_complete` and
`wavesGo_sound` below certify both directions against it). -/
def wavesGo : ℕ → List String → List Task → Except String (List (List Task))
  | _, _, [] => .ok []
  | 0, _, _ :: _ => .error "Circular dependency detected"
  | fuel + 1, completed, t0 :: rest =>
    let wave := (t0 :: rest).filter (depsDone completed)
    if wave = [] then .error "Circular dependency detected"
    else
      (wavesGo fuel (completed ++ wave.map Task.id)
          ((t0 :: rest).filter fun t => !decide (t ∈ wave))).map
        fun ws => wave :: ws

/-- Embeds `ParallelOrchestrator.calculate_waves`. -/
def calculate_waves (tasks : List Task) : Except String (List (List Task)) :=
  wavesGo tasks.length [] tasks

/-! ## Executor (`src/core/orchestrator.py`)

`ParallelOrchestrator.hooks_runner` is `None` until the CLI installs a
`HooksRunner`; its `run_hooks` coroutine (see `src/core/hooks.py`)
always returns a dict, so the capability is modelled as an optional
function from the argument value to the returned dict. -/

/-- Python `str()` escape of one character inside a `repr`-quoted
string. -/
def pyEscapeChar (q : Char) (c : Char) : String :=
  if c = '\\' then "\\\\"
  else if c = q then "\\" ++ String.singleton q
  else if c = '\n' then "\\n"
  else if c = '\r' then "\\r"
  else if c = '\t' then "\\t"
  else if c.toNat < 32 ∨ c.toNat = 127 then
    "\\x" ++ String.mk [hexDigit (c.toNat / 16), hexDigit (c.toNat % 16)]
  else String.singleton c

/-- Python `repr` of a string: single-quoted unless the string contains
a single quote and no double quote. -/
def pyReprStr (s : String) : String :=
  let q :=
    if s.toList.contains (Char.ofNat 39) ∧ ¬ s.toList.contains '"' then '"'
    else Char.ofNat 39
  String.singleton q ++ String.join (s.toList.map (pyEscapeChar q)) ++
    String.singleton q

mutual

/-- Python `repr` of a `Value` (container elements print with `repr`). -/
def pyRepr : Value → String
  | .vNull => "None"
  | .vBool true => "True"
  | .vBool false => "False"
  | .vInt n => toString n
  | .vStr s => pyReprStr s
  | .vList xs => "[" ++ pyReprList xs ++ "]"
  | .vDict fs => "\x7b" ++ pyReprFields fs ++ "\x7d"

/-- Comma-separated `repr` of list elements. -/
def pyReprList : List Value → String
  | [] => ""
  | [x] => pyRepr x
  | x :: y :: rest => pyRepr x ++ ", " ++ pyReprList (y :: rest)

/-- Comma-separated `repr` of dict items. -/
def pyReprFields : List (String × Value) → String
  | [] => ""
  | [(k, v)] => pyReprStr k ++ ": " ++ pyRepr v
  | (k, v) :: f :: rest =>
    pyReprStr k ++ ": " ++ pyRepr v ++ ", " ++ pyReprFields (f :: rest)

end

/-- Python `str()` of a `Value`, as interpolated by f-strings. -/
def pyStr : Value → String
  | .vStr s => s
  | v => pyRepr v

/-- Events emitted through `ParallelOrchestrator._emit_event`; one
constructor per `(event_type, args, kwargs)` shape occurring in the
source. -/
inductive OrchEvent where
  | taskAdded (t : Task)
  | taskStarted (t : Task)
  | taskCompleted (t : Task)
  | taskFailed (t : Task) (error : String)
  | waveStarted (waveNumber : ℕ) (tasks : ℕ)
  | waveCompleted (waveNumber : ℕ)
deriving DecidableEq

/-- Result dict of `_handle_product_owner`. -/
def productOwnerResult : Value :=
  .vDict [("vision", .vStr "Feature vision document"),
    ("acceptance_criteria", .vList [.vStr "AC1", .vStr "AC2", .vStr "AC3"]),
    ("success_metrics", .vDict [("metric1", .vStr "value1")])]

/-- Result dict of `_handle_backend_dev`. -/
def backendDevResult : Value :=
  .vDict [("api_endpoints", .vList [.vStr "/api/v1/feature"]),
    ("data_models", .vList [.vStr "Model1", .vStr "Model2"]),
    ("tests_written", .vInt 15)]

/-- Result dict of `_handle_frontend_dev`. -/
def frontendDevResult : Value :=
  .vDict [("components", .vList [.vStr "Component1", .vStr "Component2"]),
    ("ui_tests", .vInt 10), ("accessibility_score", .vInt 98)]

/-- Result dict of `_handle_devops`. -/
def devopsResult : Value :=
  .vDict [("deployment_ready", .vBool true),
    ("ci_pipeline", .vStr "configured"), ("monitoring", .vStr "enabled")]

/-- Result dict of `_handle_qa`. -/
def qaResult : Value :=
  .vDict [("test_coverage", .vInt 85), ("bugs_found", .vInt 3),
    ("performance_baseline", .vStr "established")]

/-- Embeds `ParallelOrchestrator._run_quality_checks`.  A missing
`success` key in the runner result would raise `KeyError` in Python;
the modelled error string is `str(KeyError(...))`. -/
def run_quality_checks (hooks : Option (Value → Value)) :
    Except String Value :=
  match hooks with
  | some r =>
    let res := r (.vStr "pre-push")
    match res.dictGet "success" with
    | none => .error "\x27success\x27"
    | some s =>
      .ok (.vDict [("quality_passed", s),
        ("issues_found", (res.dictGet "issues").getD (.vList [])),
        ("auto_fixed", (res.dictGet "fixed").getD (.vInt 0))])
  | none =>
    .ok (.vDict [("quality_passed", .vBool true),
      ("message", .vStr "No hooks configured")])

/-- Embeds `ParallelOrchestrator._execute_hooks`. -/
def execute_hooks (hooks : Option (Value → Value)) (t : Task) :
    Except String Value :=
  let hookType := (t.params.lookup "hook_type").getD (.vStr "pre-commit")
  match hooks with
  | some r => .ok (r hookType)
  | none =>
    .ok (.vDict [("success", .vBool true),
      ("message", .vStr "No hooks configured")])

/-- Embeds `ParallelOrchestrator._handle_tech_lead` with its
`action_handlers` dispatch and `_default_tech_lead_action` fallback. -/
def handle_tech_lead (hooks : Option (Value → Value)) (t : Task) :
    Except String Value :=
  if t.action = "run_quality_checks" then run_quality_checks hooks
  else if t.action = "perform_review" then
    .ok (.vDict [("review_status", .vStr "approved"),
      ("suggestions", .vList [.vStr "Consider using type hints",
        .vStr "Add docstrings"]),
      ("security_check", .vStr "passed")])
  else if t.action = "execute_hooks" then execute_hooks hooks t
  else
    .ok (.vDict [("action", .vStr t.action), ("status", .vStr "completed"),
      ("quality_score", .vInt 95)])

/-- Keys of the `role_handlers` dict in
`ParallelOrchestrator._execute_by_role`: the six fixed team roles. -/
def role_handler_keys : List String :=
  ["product_owner", "backend_dev", "frontend_dev", "devops_eng",
   "qa_engineer", "tech_lead"]

/-- Embeds `ParallelOrchestrator._execute_by_role`: dispatch on the
role string, raising `ValueError` (modelled as `.error`) for a role
outside the dispatch table. -/
def execute_by_role (hooks : Option (Value → Value)) (t : Task) :
    Except String Value :=
  if t.role = "product_owner" then .ok productOwnerResult
  else if t.role = "backend_dev" then .ok backendDevResult
  else if t.role = "frontend_dev" then .ok frontendDevResult
  else if t.role = "devops_eng" then .ok devopsResult
  else if t.role = "qa_engineer" then .ok qaResult
  else if t.role = "tech_lead" then handle_tech_lead hooks t
  else .error ("Unknown role: " ++ t.role)

/-- The pre-task hook block at the top of the `try` in
`ParallelOrchestrator.execute_task` (runs only for `tech_lead` tasks
when a hooks runner is installed).  `.ok none` means fall through to
the role handler; `.ok (some task)` is the early `return task` on hook
failure (note: no `task.failed` event on that path); `.error` is a
raised exception (`KeyError` from the dict subscripts). -/
def hookGate (hooks : Option (Value → Value)) (t1 : Task) :
    Except String (Option Task) :=
  if t1.role = "tech_lead" then
    match hooks with
    | some r =>
      let hr := r (.vStr t1.action)
      match hr.dictGet "success" with
      | none => .error "\x27success\x27"
      | some s =>
        if s.isTruthy then .ok none
        else
          match hr.dictGet "error" with
          | none => .error "\x27error\x27"
          | some ev =>
            .ok (some { t1 with
              error := some ("Hook failed: " ++ pyStr ev),
              status := .failed })
    | none => .ok none
  else .ok none

/-- Embeds `ParallelOrchestrator.execute_task`: Pending→Running with a
`task.started` event, then the hook gate, then the role handler; on
success Running→Completed plus `task.completed`; on a raised exception
Running→Failed plus `task.failed`; the function always returns the
task — no failure propagates out of it. -/
def execute_task (hooks : Option (Value → Value)) (t : Task) :
    Task × List OrchEvent :=
  let t1 := { t with status := .running }
  match hookGate hooks t1 with
  | .ok (some tf) => (tf, [.taskStarted t1])
  | .ok none =>
    match execute_by_role hooks t1 with
    | .ok res =>
      let t2 := { t1 with result := some res, status := .completed }
      (t2, [.taskStarted t1, .taskCompleted t2])
    | .error e =>
      let t2 := { t1 with error := some e, status := .failed }
      (t2, [.taskStarted t1, .taskFailed t2 e])
  | .error e =>
    let t2 := { t1 with error := some e, status := .failed }
    (t2, [.taskStarted t1, .taskFailed t2 e])

/-- The `for i, wave in enumerate(waves)` loop of
`ParallelOrchestrator.execute_wave`: each wave emits `wave.started`,
runs all its tasks (cooperatively concurrent `asyncio.gather`, joined
before the next wave starts), then emits `wave.completed`.
`waveNumber` is `i + 1`. -/
def runWaves (hooks : Option (Value → Value)) :
    ℕ → List (List Task) → List Task × List OrchEvent
  | _, [] => ([], [])
  | i, wave :: rest =>
    let results := wave.map fun t => (execute_task hooks t).1
    let evs := (wave.map fun t => (execute_task hooks t).2).flatten
    let r := runWaves hooks (i + 1) rest
    (results ++ r.1,
     [OrchEvent.waveStarted i wave.length] ++ evs ++
       [OrchEvent.waveCompleted i] ++ r.2)

/-- Embeds `ParallelOrchestrator.execute_wave`: compute the waves (a
cycle aborts the whole batch before anything runs and before any event
is emitted), then run the waves in order. -/
def execute_wave (hooks : Option (Value → Value)) (tasks : List Task) :
    Except String (List Task) × List OrchEvent :=
  match calculate_waves tasks with
  | .error e => (.error e, [])
  | .ok ws =>
    let r := runWaves hooks 1 ws
    (.ok r.1, r.2)

/-! ## Context store (`src/core/context.py`) -/

/-- Embeds the `ContextEntry` dataclass. -/
structure ContextEntry where
  key : String
  value : Value
  relevance_score : ℚ := 1
  last_accessed : ℕ
  access_count : ℕ := 0
deriving DecidableEq

/-- Embeds the mutable state of `ContextManager` (the
`compression_threshold` and `relevance_decay` attributes are the
constants below and the `pattern_cache` attribute is never read or
written by any method, so neither is part of the state). -/
structure ContextManager where
  max_tokens : ℕ := 4000
  context : List (String × ContextEntry) := []
deriving DecidableEq

/-- The `compression_threshold` attribute, `0.75`. -/
def compression_threshold : ℚ := 3 / 4

/-- The `relevance_decay` attribute, `0.95`. -/
def relevance_decay : ℚ := 19 / 20

/-- Token usage of a raw entry map: `TokenCounter.count` (length of the
serialisation divided by 4, integer division) of
`json.dumps({k: v.value for k, v in ...})`. -/
def usageOf (ctx : List (String × ContextEntry)) : ℕ :=
  (jsonDumpsDict (ctx.map fun kv => (kv.1, kv.2.value))).length / 4

/-- Embeds `ContextManager.get_token_usage`. -/
def ContextManager.get_token_usage (m : ContextManager) : ℕ :=
  usageOf m.context

/-- Embeds `ContextManager.get`: on a hit, bump `access_count` and
refresh `last_accessed`; on a miss return the default. -/
def ContextManager.get (m : ContextManager) (key : String) (dflt : Value)
    (now : ℕ) : Value × ContextManager :=
  match m.context.lookup key with
  | some e =>
    (e.value,
     { m with context := (alistSet m.context key
        { e with access_count := e.access_count + 1, last_accessed := now }) })
  | none => (dflt, m)

/-- The sort key of `_compress`:
`(entry.relevance_score * entry.access_count, entry.last_accessed)`. -/
def sortKey (kv : String × ContextEntry) : ℚ × ℕ :=
  (kv.2.relevance_score * kv.2.access_count, kv.2.last_accessed)

/-- Python lexicographic `<=` on the sort-key tuples. -/
def keyLex (a b : ℚ × ℕ) : Prop :=
  a.1 < b.1 ∨ (a.1 = b.1 ∧ a.2 ≤ b.2)

instance (a b : ℚ × ℕ) : Decidable (keyLex a b) := by
  unfold keyLex; infer_instance

/-- The descending comparison realised by
`entries.sort(key=..., reverse=True)` in `_compress`. -/
def descLe (a b : String × ContextEntry) : Bool :=
  decide (keyLex (sortKey b) (sortKey a))

/-- The eviction loop of `_compress`: while estimated usage exceeds
`threshold * budget`, pop the last entry of the descending sorted
snapshot (here: the head of its reversal, passed as `stack`) and delete
that key from the map; stop when usage is within budget or the snapshot
is exhausted.  Returns the shrunk map and the evicted keys in eviction
order. -/
def evictLoop (maxTokens : ℕ) :
    List (String × ContextEntry) → List (String × ContextEntry) →
      List (String × ContextEntry) × List String
  | ctx, [] => (ctx, [])
  | ctx, (k, _) :: restStack =>
    if (usageOf ctx : ℚ) > compression_threshold * maxTokens then
      let r := evictLoop maxTokens (alistErase ctx k) restStack
      (r.1, k :: r.2)
    else (ctx, [])

/-- The decay applied by `_compress` to every surviving entry:
`entry.relevance_score *= self.relevance_decay`. -/
def decayPair (kv : String × ContextEntry) : String × ContextEntry :=
  (kv.1, { kv.2 with
    relevance_score := kv.2.relevance_score * relevance_decay })

/-- Embeds `ContextManager._compress`: snapshot the entries, stable-sort
them descending by `relevance_score * access_count` then
`last_accessed`, evict from the bottom while usage exceeds
`threshold * budget`, then decay every surviving relevance score.
Also returns the evicted keys (observable through the deletions). -/
def ContextManager.compress (m : ContextManager) :
    ContextManager × List String :=
  let sortedDesc := List.mergeSort m.context descLe
  let r := evictLoop m.max_tokens m.context sortedDesc.reverse
  ({ m with context := r.1.map decayPair }, r.2)

/-- Embeds `ContextManager.set`: upsert the entry with fresh metadata,
then compress when `get_token_usage() > compression_threshold` (note:
the raw threshold `0.75`, not `threshold * budget` — the comparison the
source actually performs). -/
def ContextManager.set (m : ContextManager) (key : String) (value : Value)
    (relevance : ℚ) (now : ℕ) : ContextManager :=
  let m1 := { m with context := (alistSet m.context key
    { key := key, value := value, relevance_score := relevance,
      last_accessed := now, access_count := 0 }) }
  if (m1.get_token_usage : ℚ) > compression_threshold then m1.compress.1
  else m1

/-- The static `relevance_map` table of
`ContextManager._calculate_relevance`: role → task type → topic keys.
It has entries for five of the six team roles (`tech_lead` is
absent). -/
def relevance_map : List (String × List (String × List String)) :=
  [("product_owner",
    [("requirements", ["business_goals", "user_stories", "constraints"]),
     ("planning", ["sprint_capacity", "backlog", "priorities"]),
     ("review", ["acceptance_criteria", "metrics", "feedback"])]),
   ("backend_dev",
    [("design", ["api_standards", "data_models", "architecture"]),
     ("implement", ["tech_stack", "database_schema", "endpoints"]),
     ("test", ["test_coverage", "integration_points", "performance"])]),
   ("frontend_dev",
    [("design", ["ui_framework", "design_system", "components"]),
     ("implement", ["state_management", "api_endpoints", "routes"]),
     ("test", ["browser_targets", "accessibility", "performance"])]),
   ("devops_eng",
    [("setup", ["infrastructure", "ci_tools", "deployment_targets"]),
     ("deploy", ["pipeline_config", "secrets", "monitoring"]),
     ("monitor", ["metrics", "alerts", "sla_requirements"])]),
   ("qa_engineer",
    [("plan", ["quality_standards", "test_strategy", "coverage_goals"]),
     ("test", ["test_suites", "bug_tracking", "environments"]),
     ("report", ["metrics", "issues", "recommendations"])])]

/-- Embeds `ContextManager._calculate_relevance`: the topic keys for
`(role, task_type)`, expanded with every stored key that is a
dot-delimited child of a topic key.  The Python function returns a set;
it is modelled as a duplicate-free list (iteration order of a set is
arbitrary, and no caller depends on it). -/
def ContextManager.calculate_relevance (m : ContextManager)
    (task_type role : String) : List String :=
  let roleContext := (relevance_map.lookup role).getD []
  let taskKeys := (roleContext.lookup task_type).getD []
  taskKeys.foldl
    (fun acc key =>
      let acc1 := if key ∈ acc then acc else acc ++ [key]
      (m.context.map Prod.fst).foldl
        (fun acc2 ck =>
          if ck.startsWith (key ++ ".") ∧ ck ∉ acc2 then acc2 ++ [ck]
          else acc2)
        acc1)
    []

/-- Embeds `ContextManager._apply_compression_patterns`: summarise long
lists, big dicts and long strings. -/
def apply_compression_patterns (ctx : List (String × Value)) :
    List (String × Value) :=
  ctx.map fun kv =>
    match kv.2 with
    | .vList xs =>
      if xs.length > 10 then
        (kv.1, .vDict [("_type", .vStr "list_summary"),
          ("count", .vInt xs.length), ("sample", .vList (xs.take 3))])
      else kv
    | .vDict fs =>
      if (pyStr (.vDict fs)).length > 500 then
        (kv.1, .vDict [("_type", .vStr "dict_summary"),
          ("keys", .vList ((fs.map Prod.fst).take 5 |>.map Value.vStr)),
          ("total_keys", .vInt fs.length)])
      else kv
    | .vStr s =>
      if s.length > 1000 then
        (kv.1, .vDict [("_type", .vStr "text_summary"),
          ("length", .vInt s.length),
          ("preview", .vStr (String.mk (s.toList.take 200) ++ "..."))])
      else kv
    | _ => kv

/-- Embeds `ContextManager.get_relevant_context`. -/
def ContextManager.get_relevant_context (m : ContextManager)
    (task_type role : String) : List (String × Value) :=
  let relevantKeys := m.calculate_relevance task_type role
  apply_compression_patterns
    (relevantKeys.foldl
      (fun acc key =>
        match m.context.lookup key with
        | some e => acc ++ [(key, e.value)]
        | none => acc)
      [])

/-- One entry of the export payload of `export_context`. -/
structure ExportEntry where
  value : Value
  relevance : ℚ
  access_count : ℕ
deriving DecidableEq

/-- The export payload of `export_context` (`"context"` plus the
`"metadata"` block). -/
structure ExportData where
  contextData : List (String × ExportEntry)
  token_usage : ℕ
  max_tokens : ℕ
deriving DecidableEq

/-- The per-entry payload `export_context` serialises:
`{"value": ..., "relevance": ..., "access_count": ...}`. -/
def exportPair (kv : String × ContextEntry) : String × ExportEntry :=
  (kv.1, { value := kv.2.value, relevance := kv.2.relevance_score,
           access_count := kv.2.access_count })

/-- Embeds `ContextManager.export_context`. -/
def ContextManager.export_context (m : ContextManager) : ExportData :=
  { contextData := m.context.map exportPair,
    token_usage := m.get_token_usage,
    max_tokens := m.max_tokens }

/-- The `ContextEntry(...)` constructed by `import_context` for one
payload item; `last_accessed` starts at the import time (the dataclass
`__post_init__` fills it with `datetime.now()`). -/
def importEntry (now : ℕ) (kv : String × ExportEntry) : ContextEntry :=
  { key := kv.1, value := kv.2.value, relevance_score := kv.2.relevance,
    last_accessed := now, access_count := kv.2.access_count }

/-- Embeds `ContextManager.import_context`: rebuild each exported entry
by dict assignment. -/
def ContextManager.import_context (m : ContextManager) (data : ExportData)
    (now : ℕ) : ContextManager :=
  { m with context := (data.contextData.foldl
      (fun ctx kv => alistSet ctx kv.1 (importEntry now kv))
      m.context) }

/-! ## Event bus (`src/core/events.py`) -/

/-- Embeds the `EventType` enumeration. -/
inductive EventType where
  | task_created
  | task_started
  | task_completed
  | task_failed
  | wave_started
  | wave_completed
  | handoff_initiated
  | review_requested
  | approval_given
  | gate_passed
  | gate_failed
  | token_usage_high
  | context_compressed
deriving DecidableEq

/-- The `.value` string of each `EventType` member. -/
def EventType.value : EventType → String
  | .task_created => "task.created"
  | .task_started => "task.started"
  | .task_completed => "task.completed"
  | .task_failed => "task.failed"
  | .wave_started => "wave.started"
  | .wave_completed => "wave.completed"
  | .handoff_initiated => "handoff.initiated"
  | .review_requested => "review.requested"
  | .approval_given => "approval.given"
  | .gate_passed => "gate.passed"
  | .gate_failed => "gate.failed"
  | .token_usage_high => "system.token_usage_high"
  | .context_compressed => "system.context_compressed"

/-- The members of `EventType`, in declaration order (used by
`subscribe_all`). -/
def allEventTypes : List EventType :=
  [.task_created, .task_started, .task_completed, .task_failed,
   .wave_started, .wave_completed, .handoff_initiated, .review_requested,
   .approval_given, .gate_passed, .gate_failed, .token_usage_high,
   .context_compressed]

/-- Embeds the `Event` dataclass of `events.py`. -/
structure Event where
  id : String
  type : EventType
  timestamp : ℕ
  source : String
  data : List (String × Value)
  metadata : Option (List (String × Value)) := none
deriving DecidableEq

/-- One element of `EventMetrics.errors`. -/
structure ErrorRecord where
  timestamp : ℕ
  type : String
  error : Value
deriving DecidableEq

/-- Embeds the state of `EventMetrics`.  `durations` is keyed by the
raw `task_type` payload value (Python uses it as a dict key as-is). -/
structure EventMetrics where
  counts : List (String × ℕ) := []
  durations : List (Value × List Value) := []
  errors : List ErrorRecord := []
deriving DecidableEq

/-- First block of `EventMetrics.record`: bump the per-type count. -/
def recordCount (m : EventMetrics) (e : Event) : EventMetrics :=
  { m with counts := (alistSet m.counts e.type.value
    ((m.counts.lookup e.type.value).getD 0 + 1)) }

/-- Second block of `EventMetrics.record`: on `task.completed` with a
truthy `duration_seconds`, append the duration under the `task_type`
label. -/
def recordDuration (m : EventMetrics) (e : Event) : EventMetrics :=
  if e.type = .task_completed then
    match e.data.lookup "duration_seconds" with
    | some d =>
      if d.isTruthy then
        let taskType := (e.data.lookup "task_type").getD (.vStr "unknown")
        { m with durations := (alistSet m.durations taskType
            (((m.durations.lookup taskType).getD []) ++ [d])) }
      else m
    | none => m
  else m

/-- Third block of `EventMetrics.record`: append an error record on
`task.failed`/`gate.failed`. -/
def recordError (m : EventMetrics) (e : Event) : EventMetrics :=
  if e.type = .task_failed ∨ e.type = .gate_failed then
    { m with errors := m.errors ++
      [{ timestamp := e.timestamp, type := e.type.value,
         error := (e.data.lookup "error").getD (.vStr "Unknown error") }] }
  else m

/-- Embeds `EventMetrics.record`: bump the per-type count, collect the
duration of a truthy `duration_seconds` on `task.completed`, and append
an error record on `task.failed`/`gate.failed` (the three statement
blocks of the method, in order). -/
def EventMetrics.record (m : EventMetrics) (e : Event) : EventMetrics :=
  recordError (recordDuration (recordCount m e) e) e

/-- Outcome of one handler invocation as seen from `_safe_handle`: the
handler either returned, or raised and had its exception caught and
logged at the handler boundary. -/
inductive HandlerOutcome where
  | ok
  | loggedError (msg : String)
deriving DecidableEq

/-- Embeds `EventBus._safe_handle`: run the handler, catching any
failure and turning it into a log entry. -/
def safe_handle (handler : Event → Except String Unit) (e : Event) :
    HandlerOutcome :=
  match handler e with
  | .ok _ => .ok
  | .error msg => .loggedError msg

/-- Embeds the state of `EventBus`.  Registered Python callables are
identified by opaque handler ids; their behaviour (return or raise) is
supplied externally to `emit`. -/
structure EventBus where
  handlers : List (EventType × List ℕ) := []
  event_log : List Event := []
  metrics : EventMetrics := {}
deriving DecidableEq

/-- Embeds `EventBus.subscribe`. -/
def EventBus.subscribe (b : EventBus) (t : EventType) (h : ℕ) : EventBus :=
  { b with handlers := (alistSet b.handlers t
      (((b.handlers.lookup t).getD []) ++ [h])) }

/-- Embeds `EventBus.subscribe_all`. -/
def EventBus.subscribe_all (b : EventBus) (h : ℕ) : EventBus :=
  allEventTypes.foldl (fun acc t => acc.subscribe t h) b

/-- Handler id of the default `_log_failure` handler. -/
def logFailureId : ℕ := 0

/-- Handler id of the default `_log_gate_failure` handler. -/
def logGateFailureId : ℕ := 1

/-- Embeds `EventBus.__init__`: empty log and metrics, with the two
default logging handlers subscribed. -/
def EventBus.init : EventBus :=
  (({} : EventBus).subscribe .task_failed logFailureId).subscribe
    .gate_failed logGateFailureId

/-- Embeds `EventBus.emit`: append the event to the log, update the
metrics, then run every handler registered for the event's type through
`_safe_handle` (concurrently, joined before `emit` returns).
`behavior` gives each handler id its effect on this event; the returned
list records, in registration order, each handler that ran and its
outcome. -/
def EventBus.emit (b : EventBus) (behavior : ℕ → Event → Except String Unit)
    (e : Event) : EventBus × List (ℕ × HandlerOutcome) :=
  let b1 := { b with event_log := b.event_log ++ [e],
                     metrics := b.metrics.record e }
  let hs := (b.handlers.lookup e.type).getD []
  (b1, hs.map fun h => (h, safe_handle (behavior h) e))

/-- A sequence of `emit` calls (the bus state after each call feeds the
next). -/
def emitAll (b : EventBus) (behavior : ℕ → Event → Except String Unit)
    (es : List Event) : EventBus :=
  es.foldl (fun acc e => (acc.emit behavior e).1) b

/-! ## Specification-level predicates -/

/-- The dependency relation of a batch: `depStep tasks t u` holds when
`u` is a task of the batch and `t` names `u`'s id among its
dependencies. -/
def depStep (tasks : List Task) (t u : Task) : Prop :=
  u ∈ tasks ∧ u.id ∈ t.dependencies

/-- The batch's dependency relation has a cycle: some task depends on
itself through one or more dependency edges. -/
def HasCycle (tasks : List Task) : Prop :=
  ∃ t ∈ tasks, Relation.TransGen (depStep tasks) t t

/-- Every dependency id resolves within the batch. -/
def ClosedDeps (tasks : List Task) : Prop :=
  ∀ t ∈ tasks, ∀ d ∈ t.dependencies, d ∈ tasks.map Task.id

/-- Task ids are unique within the batch (a "task set": the
orchestrator stores tasks in a dict keyed by id). -/
def NodupIds (tasks : List Task) : Prop :=
  (tasks.map Task.id).Nodup

/-- Every dependency of every task of wave `i` is the id of some task
of a strictly earlier wave. -/
def WavesRespectDeps (ws : List (List Task)) : Prop :=
  ∀ i, i < ws.length → ∀ t ∈ ws.getD i [], ∀ d ∈ t.dependencies,
    ∃ j, j < i ∧ ∃ u ∈ ws.getD j [], u.id = d

/-- Generalisation of `WavesRespectDeps` relative to an initial
`completed_ids` accumulator (the loop invariant of `calculate_waves`):
each dependency is either already completed or provided by an earlier
wave. -/
def RespectRel (completed : List String) (ws : List (List Task)) : Prop :=
  ∀ i, i < ws.length → ∀ t ∈ ws.getD i [], ∀ d ∈ t.dependencies,
    d ∈ completed ∨ ∃ j, j < i ∧ ∃ u ∈ ws.getD j [], u.id = d

/-- Eviction priority as stated by the specification: lower
`relevance_score × access_count` first, ties broken by older
`last_accessed`. -/
def entryLe (a b : String × ContextEntry) : Prop :=
  keyLex (sortKey a) (sortKey b)

/-- The roles that have a row in the static `relevance_map` table. -/
def relevance_map_roles : List String := relevance_map.map Prod.fst

/-- Task A of the specification's example scenario 1. -/
def taskA : Task := { id := "A", role := "product_owner", action := "requirements" }

/-- Task B of the specification's example scenario 1. -/
def taskB : Task :=
  { id := "B", role := "backend_dev", action := "implement", dependencies := ["A"] }

/-- Task C of the specification's example scenario 1. -/
def taskC : Task :=
  { id := "C", role := "frontend_dev", action := "implement", dependencies := ["A"] }

/-- Task D of the specification's example scenario 1. -/
def taskD : Task :=
  { id := "D", role := "qa_engineer", action := "test", dependencies := ["B", "C"] }

/-- Task A of the specification's example scenario 2 (the A↔B cycle). -/
def cycTaskA : Task :=
  { id := "A", role := "backend_dev", action := "implement",
    dependencies := ["B"] }

/-- Task B of the specification's example scenario 2 (the A↔B cycle). -/
def cycTaskB : Task :=
  { id := "B", role := "frontend_dev", action := "implement",
    dependencies := ["A"] }

/-- First task of the specification's example scenario 5. -/
def waveTask1 : Task := { id := "T1", role := "backend_dev", action := "implement" }

/-- Second task of the specification's example scenario 5 (its role is
outside the dispatch table, so its handler fails). -/
def waveTask2 : Task := { id := "T2", role := "designer", action := "draw" }

/-- Third task of the specification's example scenario 5. -/
def waveTask3 : Task := { id := "T3", role := "qa_engineer", action := "test" }

instance (tasks : List Task) : Decidable (ClosedDeps tasks) := by
  unfold ClosedDeps
  infer_instance

instance (tasks : List Task) : Decidable (NodupIds tasks) := by
  unfold NodupIds
  infer_instance

/-! ## Sanity checks of the embedding on concrete inputs -/

example :
    calculate_waves
      [{ id := "A", role := "r", action := "a" },
       { id := "B", role := "r", action := "a", dependencies := ["A"] }] =
    .ok [[{ id := "A", role := "r", action := "a" }],
         [{ id := "B", role := "r", action := "a", dependencies := ["A"] }]] := by
  rfl

example :
    calculate_waves
      [{ id := "A", role := "r", action := "a", dependencies := ["B"] },
       { id := "B", role := "r", action := "a", dependencies := ["A"] }] =
    .error "Circular dependency detected" := by
  rfl

example : jsonDumpsDict [("a", .vStr "x")] = "\x7b\"a\": \"x\"\x7d" := by rfl

example : jsonDumpsDict [] = "{}" := by rfl

example :
    (execute_task none { id := "A", role := "qa_engineer", action := "x" }).1.status
      = TaskStatus.completed := by rfl

example :
    (execute_task none { id := "A", role := "designer", action := "x" }).1.error
      = some "Unknown role: designer" := by rfl

/-! ## Helper lemmas -/

/-- Removing elements by a predicate that fails somewhere in the list
strictly shrinks it. -/
theorem length_filter_lt_of_mem {α : Type} {l : List α} {p : α → Bool} {a : α}
    (ha : a ∈ l) (hpa : p a = false) : (l.filter p).length < l.length := by
  induction l with
  | nil => cases ha
  | cons b bs ih =>
    rcases List.mem_cons.mp ha with rfl | hmem
    · simp only [List.filter_cons, hpa, Bool.false_eq_true, if_false]
      exact Nat.lt_succ_of_le (List.length_filter_le p bs)
    · by_cases hb : p b = true
      · simp only [List.filter_cons, hb, if_true, List.length_cons]
        exact Nat.succ_lt_succ (ih hmem)
      · simp only [List.filter_cons, hb, if_false, List.length_cons]
        exact Nat.lt_succ_of_lt (ih hmem)

theorem lookup_alistSet_self {κ α : Type} [DecidableEq κ]
    (l : List (κ × α)) (k : κ) (v : α) : (alistSet l k v).lookup k = some v := by
  induction l with
  | nil => simp [alistSet]
  | cons p rest ih =>
    obtain ⟨k1, v1⟩ := p
    by_cases h : k1 = k
    · subst h; simp [alistSet]
    · simp only [alistSet, if_neg h, List.lookup_cons]
      rw [beq_false_of_ne (Ne.symm h)]
      exact ih

theorem lookup_alistSet_ne {κ α : Type} [DecidableEq κ]
    (l : List (κ × α)) (k k2 : κ) (v : α) (h : k2 ≠ k) :
    (alistSet l k v).lookup k2 = l.lookup k2 := by
  induction l with
  | nil => simp [alistSet, List.lookup_cons, beq_false_of_ne h]
  | cons p rest ih =>
    obtain ⟨k1, v1⟩ := p
    by_cases h1 : k1 = k
    · subst h1
      have hset : alistSet ((k1, v1) :: rest) k1 v = (k1, v) :: rest := by
        simp [alistSet]
      rw [hset, List.lookup_cons, List.lookup_cons, beq_false_of_ne h]
    · simp only [alistSet, if_neg h1, List.lookup_cons]
      cases hb : (k2 == k1) <;> simp [ih]

theorem lookup_eq_none_of_not_mem_keys {κ α : Type} [BEq κ] [LawfulBEq κ]
    {l : List (κ × α)} {k : κ} (h : k ∉ l.map Prod.fst) : l.lookup k = none := by
  rw [List.lookup_eq_none_iff]
  intro p hp
  have : p.1 ∈ l.map Prod.fst := List.mem_map_of_mem Prod.fst hp
  exact bne_iff_ne.mpr fun he => h (he ▸ this)

theorem lookup_some_mem {κ α : Type} [BEq κ] [LawfulBEq κ]
    {l : List (κ × α)} {k : κ} {v : α} (h : l.lookup k = some v) : (k, v) ∈ l := by
  induction l with
  | nil => simp [List.lookup] at h
  | cons p rest ih =>
    obtain ⟨k1, v1⟩ := p
    rw [List.lookup_cons] at h
    cases hb : (k == k1) with
    | true =>
      rw [hb] at h
      injection h with h
      exact (eq_of_beq hb) ▸ h ▸ List.mem_cons_self _ _
    | false =>
      rw [hb] at h
      exact List.mem_cons_of_mem _ (ih h)

theorem lookup_of_mem_nodup {κ α : Type} [BEq κ] [LawfulBEq κ]
    {l : List (κ × α)} {k : κ} {v : α} (hnd : (l.map Prod.fst).Nodup)
    (hm : (k, v) ∈ l) : l.lookup k = some v := by
  induction l with
  | nil => cases hm
  | cons p rest ih =>
    obtain ⟨k1, v1⟩ := p
    rcases List.mem_cons.mp hm with heq | hmem
    · injection heq with h1 h2
      subst h1; subst h2
      exact List.lookup_cons_self
    · have hk1 : k1 ∉ rest.map Prod.fst := (List.nodup_cons.mp hnd).1
      have hne : k ≠ k1 := by
        intro he
        exact hk1 (he ▸ List.mem_map_of_mem Prod.fst hmem)
      rw [List.lookup_cons, beq_false_of_ne hne]
      exact ih (List.nodup_cons.mp hnd).2 hmem

theorem alistSet_eq_append_of_not_mem {κ α : Type} [DecidableEq κ]
    {l : List (κ × α)} {k : κ} (v : α) (h : k ∉ l.map Prod.fst) :
    alistSet l k v = l ++ [(k, v)] := by
  induction l with
  | nil => rfl
  | cons p rest ih =>
    obtain ⟨k1, v1⟩ := p
    have h1 : k1 ≠ k := by
      intro he
      exact h (by simp [he])
    have h2 : k ∉ rest.map Prod.fst := fun hm => h (by simp [hm])
    simp only [alistSet, if_neg h1, List.cons_append, ih h2]

theorem alistSet_keys_subset {κ α : Type} [DecidableEq κ]
    (l : List (κ × α)) (k : κ) (v : α) :
    (alistSet l k v).map Prod.fst ⊆ k :: l.map Prod.fst := by
  induction l with
  | nil => simp [alistSet]
  | cons p rest ih =>
    obtain ⟨k1, v1⟩ := p
    by_cases h : k1 = k
    · subst h
      simp [alistSet]
    · intro x hx
      simp only [alistSet, if_neg h, List.map_cons, List.mem_cons] at hx
      rcases hx with rfl | hx
      · simp
      · rcases List.mem_cons.mp (ih hx) with rfl | hx2
        · exact List.mem_cons_self _ _
        · simp [hx2]

theorem alistSet_keys_nodup {κ α : Type} [DecidableEq κ]
    {l : List (κ × α)} {k : κ} {v : α} (hnd : (l.map Prod.fst).Nodup) :
    ((alistSet l k v).map Prod.fst).Nodup := by
  induction l with
  | nil => simp [alistSet]
  | cons p rest ih =>
    obtain ⟨k1, v1⟩ := p
    rw [List.map_cons, List.nodup_cons] at hnd
    by_cases h : k1 = k
    · subst h
      simpa [alistSet] using hnd
    · simp only [alistSet, if_neg h, List.map_cons, List.nodup_cons]
      refine ⟨fun hmem => ?_, ih hnd.2⟩
      rcases List.mem_cons.mp (alistSet_keys_subset rest k v hmem) with he | hm
      · exact h he
      · exact hnd.1 hm

theorem alistErase_sublist {κ α : Type} [DecidableEq κ]
    (l : List (κ × α)) (k : κ) : (alistErase l k).Sublist l := by
  induction l with
  | nil => simp [alistErase]
  | cons p rest ih =>
    obtain ⟨k1, v1⟩ := p
    by_cases h : k1 = k
    · simp only [alistErase, if_pos h]
      exact List.sublist_cons_self _ _
    · simp only [alistErase, if_neg h]
      exact ih.cons₂ (k1, v1)

theorem lookup_map_valfn {κ α β : Type} [BEq κ] [LawfulBEq κ]
    (l : List (κ × α)) (g : α → β) (k : κ) :
    (l.map fun kv => (kv.1, g kv.2)).lookup k = (l.lookup k).map g := by
  induction l with
  | nil => rfl
  | cons p rest ih =>
    obtain ⟨k1, v1⟩ := p
    rw [List.map_cons, List.lookup_cons, List.lookup_cons]
    cases hb : (k == k1) <;> simp [ih]

theorem alistErase_not_mem_keys {κ α : Type} [DecidableEq κ]
    {l : List (κ × α)} {k : κ} (hnd : (l.map Prod.fst).Nodup) :
    k ∉ (alistErase l k).map Prod.fst := by
  induction l with
  | nil => simp [alistErase]
  | cons p rest ih =>
    obtain ⟨k1, v1⟩ := p
    rw [List.map_cons, List.nodup_cons] at hnd
    by_cases h : k1 = k
    · subst h
      simp only [alistErase, if_pos rfl]
      exact hnd.1
    · simp only [alistErase, if_neg h, List.map_cons, List.mem_cons]
      rintro (he | hm)
      · exact h he.symm
      · exact ih hnd.2 hm

/-! ## Claim C10: the relevant-context slice of a role outside the
static topic table -/

/-- C10.  `tech_lead` is one of the six fixed roles (a key of the
executor's `role_handlers` dispatch table) but has no row in the static
`relevance_map` topic table, and `get_relevant_context` returns the
empty mapping for it — as it does for every role string outside the
table — for every store state and every task type. -/
theorem claim_C10 :
    ("tech_lead" ∈ role_handler_keys ∧ "tech_lead" ∉ relevance_map_roles) ∧
    (∀ (m : ContextManager) (task_type role : String),
      role ∉ relevance_map_roles →
      m.get_relevant_context task_type role = []) := by
  refine ⟨⟨by decide, by decide⟩, ?_⟩
  intro m task_type role h
  have hnone : relevance_map.lookup role = none :=
    lookup_eq_none_of_not_mem_keys h
  simp [ContextManager.get_relevant_context, ContextManager.calculate_relevance,
    hnone, apply_compression_patterns]

/-- Witness for C10 at a concrete input: a store holding a
`business_goals` entry (a topic key of other roles) still yields the
empty slice for role `tech_lead`. -/
theorem claim_C10_witness :
    "tech_lead" ∉ relevance_map_roles ∧
    ContextManager.get_relevant_context
      { max_tokens := 4000,
        context := [("business_goals",
          { key := "business_goals", value := .vStr "launch", last_accessed := 0 })] }
      "requirements" "tech_lead" = [] :=
  ⟨by decide, claim_C10.2 _ "requirements" "tech_lead" (by decide)⟩

/-! ## Claim C7: handler failures are contained by the event bus -/

/-- C7.  The bus state `emit` produces (log and metrics) does not
depend on the behaviour of the subscribed handlers at all, every
handler registered for the event's type is invoked exactly once (in
registration order) whatever its siblings do, and a handler failure is
caught at the handler boundary by `_safe_handle` and turned into a
logged outcome — `emit` itself never fails. -/
theorem claim_C7 :
    (∀ (b : EventBus) (behavior1 behavior2 : ℕ → Event → Except String Unit)
      (e : Event), (b.emit behavior1 e).1 = (b.emit behavior2 e).1) ∧
    (∀ (b : EventBus) (behavior : ℕ → Event → Except String Unit) (e : Event),
      (b.emit behavior e).2.map Prod.fst = (b.handlers.lookup e.type).getD []) ∧
    (∀ (handler : Event → Except String Unit) (e : Event) (msg : String),
      handler e = .error msg → safe_handle handler e = .loggedError msg) := by
  refine ⟨fun b b1 b2 e => rfl, fun b behavior e => ?_, fun handler e msg h => ?_⟩
  · simp only [EventBus.emit, List.map_map]
    exact List.map_id _
  · simp [safe_handle, h]

/-- Witness for C7 at a concrete input: a handler that raises has its
failure converted to a logged outcome by `_safe_handle`. -/
theorem claim_C7_witness :
    (fun _ : Event => (.error "boom" : Except String Unit))
        ⟨"e1", .task_failed, 0, "orchestrator", [], none⟩ = .error "boom" ∧
    safe_handle (fun _ : Event => (.error "boom" : Except String Unit))
        ⟨"e1", .task_failed, 0, "orchestrator", [], none⟩ = .loggedError "boom" :=
  ⟨rfl, claim_C7.2.2 _ ⟨"e1", .task_failed, 0, "orchestrator", [], none⟩ "boom" rfl⟩

/-! ## Claim C6: metrics counts match emit calls exactly -/

theorem eventType_value_inj :
    ∀ a b : EventType, a.value = b.value → a = b := by
  intro a b h
  cases a <;> cases b <;> revert h <;> decide

theorem recordDuration_counts (m : EventMetrics) (e : Event) :
    (recordDuration m e).counts = m.counts := by
  unfold recordDuration
  (repeat' split) <;> rfl

theorem recordError_counts (m : EventMetrics) (e : Event) :
    (recordError m e).counts = m.counts := by
  unfold recordError
  split <;> rfl

theorem record_counts (m : EventMetrics) (e : Event) :
    (m.record e).counts =
      alistSet m.counts e.type.value ((m.counts.lookup e.type.value).getD 0 + 1) := by
  unfold EventMetrics.record
  rw [recordError_counts, recordDuration_counts]
  rfl

theorem record_count_lookup (m : EventMetrics) (e : Event) (t : EventType) :
    (((m.record e).counts.lookup t.value).getD 0) =
      ((m.counts.lookup t.value).getD 0) + (if e.type = t then 1 else 0) := by
  rw [record_counts]
  by_cases h : e.type = t
  · subst h
    rw [lookup_alistSet_self]
    simp
  · have hne : t.value ≠ e.type.value := fun hv =>
      h (eventType_value_inj _ _ hv).symm
    rw [lookup_alistSet_ne _ _ _ _ hne]
    simp [h]

theorem emitAll_counts (behavior : ℕ → Event → Except String Unit)
    (es : List Event) : ∀ (b : EventBus) (t : EventType),
    (((emitAll b behavior es).metrics.counts.lookup t.value).getD 0) =
      ((b.metrics.counts.lookup t.value).getD 0) +
        (es.filter fun e => e.type == t).length := by
  induction es with
  | nil => intro b t; simp [emitAll]
  | cons e es ih =>
    intro b t
    have hstep : emitAll b behavior (e :: es) =
        emitAll ((b.emit behavior e).1) behavior es := rfl
    rw [hstep, ih]
    have hm : ((b.emit behavior e).1).metrics = b.metrics.record e := rfl
    rw [hm, record_count_lookup]
    by_cases h : e.type = t
    · subst h
      simp [List.filter_cons]
      omega
    · have hb : (e.type == t) = false := beq_false_of_ne h
      simp [List.filter_cons, hb, h]

/-- C6.  Starting from a fresh bus, after any sequence of `emit` calls
the metrics count recorded for a type equals exactly the number of
emitted events of that type; and an `emit` of a type with zero
subscribers returns normally with the event appended to the log, the
type's count incremented by one, and no handler invoked. -/
theorem claim_C6 :
    (∀ (behavior : ℕ → Event → Except String Unit) (es : List Event)
      (t : EventType),
      (((emitAll EventBus.init behavior es).metrics.counts.lookup t.value).getD 0) =
        (es.filter fun e => e.type == t).length) ∧
    (∀ (b : EventBus) (behavior : ℕ → Event → Except String Unit) (e : Event),
      (b.handlers.lookup e.type).getD [] = [] →
      (b.emit behavior e).1.event_log = b.event_log ++ [e] ∧
      (((b.emit behavior e).1.metrics.counts.lookup e.type.value).getD 0) =
        ((b.metrics.counts.lookup e.type.value).getD 0) + 1 ∧
      (b.emit behavior e).2 = []) := by
  constructor
  · intro behavior es t
    rw [emitAll_counts]
    have h0 : ((EventBus.init.metrics.counts.lookup t.value).getD 0) = 0 := rfl
    rw [h0, Nat.zero_add]
  · intro b behavior e h
    refine ⟨rfl, ?_, ?_⟩
    · have hm : (b.emit behavior e).1.metrics = b.metrics.record e := rfl
      rw [hm, record_count_lookup]
      simp
    · show (((b.handlers.lookup e.type).getD []).map
        fun hid => (hid, safe_handle (behavior hid) e)) = []
      rw [h]
      rfl

/-- Witness for C6 at a concrete input: on the fresh bus, a
`wave.started` event has zero subscribers; emitting it raises nothing,
appends to the log, bumps its count by one, and runs no handler. -/
theorem claim_C6_witness :
    (EventBus.init.handlers.lookup EventType.wave_started).getD [] = [] ∧
    ((EventBus.init.emit (fun _ _ => .ok ())
        ⟨"e1", .wave_started, 0, "orchestrator", [], none⟩).1.event_log =
      EventBus.init.event_log ++
        [⟨"e1", .wave_started, 0, "orchestrator", [], none⟩] ∧
     (((EventBus.init.emit (fun _ _ => .ok ())
        ⟨"e1", .wave_started, 0, "orchestrator", [], none⟩).1.metrics.counts.lookup
          (EventType.wave_started.value)).getD 0) =
       ((EventBus.init.metrics.counts.lookup (EventType.wave_started.value)).getD 0)
         + 1 ∧
     (EventBus.init.emit (fun _ _ => .ok ())
        ⟨"e1", .wave_started, 0, "orchestrator", [], none⟩).2 = []) :=
  ⟨rfl, claim_C6.2 EventBus.init (fun _ _ => .ok ())
    ⟨"e1", .wave_started, 0, "orchestrator", [], none⟩ rfl⟩

/-! ## Claim C5: role-handler failure is contained in `execute_task` -/

/-- C5.  Whenever the role handler raises (for a task that reached it
through the hook gate), `execute_task` stores the raised error message
on the task, moves it Running→Failed, emits `task.started` then
`task.failed` with that error, and returns the task — being a total
function, it never propagates the failure to its caller.  In
particular, a role outside the six-entry dispatch table (the one
unconditionally failing case in the source) raises
`ValueError("Unknown role: ...")` and is contained the same way. -/
theorem claim_C5 :
    (∀ (hooks : Option (Value → Value)) (t : Task) (e : String),
      hookGate hooks { t with status := .running } = .ok none →
      execute_by_role hooks { t with status := .running } = .error e →
      execute_task hooks t =
        ({ t with status := .failed, error := some e },
         [OrchEvent.taskStarted { t with status := .running },
          OrchEvent.taskFailed { t with status := .failed, error := some e }
            e])) ∧
    (∀ (hooks : Option (Value → Value)) (t : Task),
      t.role ∉ role_handler_keys →
      execute_task hooks t =
        ({ t with
              status := .failed,
              error := some ("Unknown role: " ++ t.role) },
         [OrchEvent.taskStarted { t with status := .running },
          OrchEvent.taskFailed
            { t with
                status := .failed,
                error := some ("Unknown role: " ++ t.role) }
            ("Unknown role: " ++ t.role)])) := by
  constructor
  · intro hooks t e hg hr
    simp [execute_task, hg, hr]
  · intro hooks t h
    simp only [role_handler_keys, List.mem_cons, List.not_mem_nil, or_false] at h
    push_neg at h
    obtain ⟨h1, h2, h3, h4, h5, h6⟩ := h
    simp [execute_task, hookGate, execute_by_role, h1, h2, h3, h4, h5, h6]

/-- Witness for C5 at a concrete input: a task with the unknown role
`designer`. -/
theorem claim_C5_witness :
    (⟨"T", "designer", "draw", [], [], .pending, none, none⟩ : Task).role
        ∉ role_handler_keys ∧
    execute_task none ⟨"T", "designer", "draw", [], [], .pending, none, none⟩ =
      (⟨"T", "designer", "draw", [], [], .failed, none,
          some "Unknown role: designer"⟩,
       [OrchEvent.taskStarted
          ⟨"T", "designer", "draw", [], [], .running, none, none⟩,
        OrchEvent.taskFailed
          ⟨"T", "designer", "draw", [], [], .failed, none,
            some "Unknown role: designer"⟩
          "Unknown role: designer"]) :=
  ⟨by decide,
   claim_C5.2 none ⟨"T", "designer", "draw", [], [], .pending, none, none⟩
    (by decide)⟩

/-! ## Claim C8: export/import round trip -/

theorem lookup_map_pair {κ α β : Type} [BEq κ] [LawfulBEq κ]
    {l : List (κ × α)} (g : κ × α → β) {k : κ} {v : α}
    (h : l.lookup k = some v) :
    (l.map fun kv => (kv.1, g kv)).lookup k = some (g (k, v)) := by
  induction l with
  | nil => simp [List.lookup] at h
  | cons p rest ih =>
    obtain ⟨k1, v1⟩ := p
    rw [List.lookup_cons] at h
    rw [List.map_cons, List.lookup_cons]
    cases hb : (k == k1) with
    | true =>
      rw [hb] at h
      injection h with h
      have hk : k = k1 := eq_of_beq hb
      subst hk; subst h
      rfl
    | false =>
      rw [hb] at h
      exact ih h

theorem foldl_alistSet_disjoint {κ α β : Type} [DecidableEq κ]
    (f : κ × β → α) :
    ∀ (entries : List (κ × β)) (ctx : List (κ × α)),
      (entries.map Prod.fst).Nodup →
      (∀ k ∈ entries.map Prod.fst, k ∉ ctx.map Prod.fst) →
      entries.foldl (fun c kv => alistSet c kv.1 (f kv)) ctx =
        ctx ++ entries.map fun kv => (kv.1, f kv) := by
  intro entries
  induction entries with
  | nil => intro ctx _ _; simp
  | cons p rest ih =>
    intro ctx hnd hdisj
    obtain ⟨k0, b0⟩ := p
    rw [List.map_cons, List.nodup_cons] at hnd
    have hstep : (((k0, b0) :: rest).foldl
        (fun c kv => alistSet c kv.1 (f kv)) ctx) =
        rest.foldl (fun c kv => alistSet c kv.1 (f kv))
          (alistSet ctx k0 (f (k0, b0))) := rfl
    rw [hstep, alistSet_eq_append_of_not_mem _ (hdisj k0 (by simp))]
    rw [ih _ hnd.2 ?_]
    · simp [List.append_assoc]
    · intro k hk
      rw [List.map_append, List.mem_append]
      rintro (hc | hs)
      · exact hdisj k (List.mem_cons_of_mem _ hk) hc
      · simp only [List.map_cons, List.map_nil, List.mem_singleton] at hs
        exact hnd.1 (hs ▸ hk)

/-- C8.  Exporting a store and importing the payload into a store with
no conflicting keys reproduces every entry with identical value,
identical `access_count` and identical `relevance_score` (scores are
exact rationals in this model, so "within floating tolerance" holds
with equality), while `last_accessed` is reset to the import time. -/
theorem claim_C8 :
    ∀ (m target : ContextManager) (now : ℕ),
      (m.context.map Prod.fst).Nodup →
      (∀ k ∈ m.context.map Prod.fst, k ∉ target.context.map Prod.fst) →
      ∀ (k : String) (e : ContextEntry), m.context.lookup k = some e →
        ∃ e2 : ContextEntry,
          (target.import_context m.export_context now).context.lookup k
            = some e2 ∧
          e2.value = e.value ∧ e2.relevance_score = e.relevance_score ∧
          e2.access_count = e.access_count ∧ e2.last_accessed = now := by
  intro m target now hnd hdisj k e hk
  have hkm : k ∈ m.context.map Prod.fst :=
    List.mem_map_of_mem Prod.fst (lookup_some_mem hk)
  have hup : (target.import_context m.export_context now).context =
      target.context ++
        (m.export_context.contextData.map fun kv =>
          (kv.1, importEntry now kv)) := by
    unfold ContextManager.import_context
    rw [foldl_alistSet_disjoint]
    · show ((m.context.map exportPair).map Prod.fst).Nodup
      rw [List.map_map]
      exact hnd
    · intro k2 hk2
      refine hdisj k2 ?_
      simp only [ContextManager.export_context, List.map_map] at hk2
      exact hk2
  rw [hup, List.lookup_append,
    lookup_eq_none_of_not_mem_keys (hdisj k hkm), Option.none_or]
  simp only [ContextManager.export_context, List.map_map]
  exact ⟨importEntry now (exportPair (k, e)),
    lookup_map_pair (fun kv => importEntry now (exportPair kv)) hk,
    rfl, rfl, rfl, rfl⟩

/-- Witness for C8 at a concrete input: one exported entry lands in an
empty target store with value, relevance and access count intact and
`last_accessed` reset to the import time `7`. -/
theorem claim_C8_witness :
    (([("notes", (⟨"notes", .vStr "hello", 1 / 2, 3, 5⟩ : ContextEntry))].map
        Prod.fst).Nodup) ∧
    (∃ e2 : ContextEntry,
      (ContextManager.import_context ⟨4000, []⟩
        (ContextManager.export_context
          ⟨4000, [("notes", ⟨"notes", .vStr "hello", 1 / 2, 3, 5⟩)]⟩)
        7).context.lookup "notes" = some e2 ∧
      e2.value = Value.vStr "hello" ∧ e2.relevance_score = 1 / 2 ∧
      e2.access_count = 5 ∧ e2.last_accessed = 7) :=
  ⟨by decide,
   claim_C8 ⟨4000, [("notes", ⟨"notes", .vStr "hello", 1 / 2, 3, 5⟩)]⟩
     ⟨4000, []⟩ 7 (by decide) (by intro k _ hk2; simp at hk2) "notes"
     ⟨"notes", .vStr "hello", 1 / 2, 3, 5⟩ rfl⟩

/-! ## Claim C4: the compression pass -/

theorem evictLoop_no_evict (maxT : ℕ) (ctx stack : List (String × ContextEntry))
    (h : ¬ ((usageOf ctx : ℚ) > compression_threshold * maxT)) :
    evictLoop maxT ctx stack = (ctx, []) := by
  cases stack with
  | nil => rfl
  | cons p rest =>
    obtain ⟨k, e⟩ := p
    simp only [evictLoop, if_neg h]

theorem usageOf_decay (l : List (String × ContextEntry)) :
    usageOf (l.map decayPair) = usageOf l := by
  unfold usageOf
  rw [List.map_map]
  rfl

theorem usageOf_nil_eq : usageOf [] = 0 := rfl

theorem evictLoop_usage (maxT : ℕ) :
    ∀ stack ctx : List (String × ContextEntry),
      (ctx.map Prod.fst).Nodup →
      (∀ k ∈ ctx.map Prod.fst, k ∈ stack.map Prod.fst) →
      ((usageOf (evictLoop maxT ctx stack).1 : ℚ) ≤
        compression_threshold * maxT) := by
  intro stack
  induction stack with
  | nil =>
    intro ctx _ hsub
    have hctx : ctx = [] := by
      cases ctx with
      | nil => rfl
      | cons p rest => exact absurd (hsub p.1 (by simp)) (by simp)
    subst hctx
    show ((usageOf [] : ℚ)) ≤ compression_threshold * maxT
    rw [usageOf_nil_eq]
    unfold compression_threshold
    push_cast
    positivity
  | cons p rest ih =>
    intro ctx hnd hsub
    obtain ⟨k, e⟩ := p
    by_cases hg : (usageOf ctx : ℚ) > compression_threshold * maxT
    · have hstep : (evictLoop maxT ctx ((k, e) :: rest)).1 =
          (evictLoop maxT (alistErase ctx k) rest).1 := by
        simp only [evictLoop, if_pos hg]
      rw [hstep]
      refine ih (alistErase ctx k) ?_ ?_
      · exact ((alistErase_sublist ctx k).map Prod.fst).nodup hnd
      · intro k2 hk2
        have hk2ctx : k2 ∈ ctx.map Prod.fst :=
          ((alistErase_sublist ctx k).map Prod.fst).subset hk2
        rcases List.mem_cons.mp (hsub k2 hk2ctx) with rfl | hk2rest
        · exact absurd hk2 (alistErase_not_mem_keys hnd)
        · exact hk2rest
    · rw [evictLoop_no_evict maxT ctx _ hg]
      exact not_lt.mp hg

theorem compress_usage_le (m : ContextManager)
    (hnd : (m.context.map Prod.fst).Nodup) :
    ((m.compress.1.get_token_usage : ℚ)) ≤
      compression_threshold * m.max_tokens := by
  show ((usageOf m.compress.1.context : ℚ)) ≤ _
  have h1 : m.compress.1.context =
      ((evictLoop m.max_tokens m.context
        ((List.mergeSort m.context descLe).reverse)).1).map decayPair := rfl
  rw [h1, usageOf_decay]
  refine evictLoop_usage m.max_tokens _ m.context hnd ?_
  intro k hk
  have hperm : ((List.mergeSort m.context descLe).reverse).Perm m.context :=
    (List.reverse_perm _).trans (List.mergeSort_perm _ _)
  exact ((hperm.map Prod.fst).mem_iff).mpr hk

theorem jsonQuote_length_ge (s : String) : 2 ≤ (jsonQuote s).length := by
  unfold jsonQuote
  rw [String.length_append, String.length_append]
  have h1 : ("\"" : String).length = 1 := rfl
  omega

theorem dumpFields_length_ge (f : String × Value)
    (rest : List (String × Value)) : 4 ≤ (dumpFields (f :: rest)).length := by
  obtain ⟨k, v⟩ := f
  cases rest with
  | nil =>
    show 4 ≤ (jsonQuote k ++ ": " ++ dumpValue v).length
    rw [String.length_append, String.length_append]
    have h1 : (": " : String).length = 2 := rfl
    have h2 := jsonQuote_length_ge k
    omega
  | cons f2 r2 =>
    show 4 ≤ (jsonQuote k ++ ": " ++ dumpValue v ++ ", " ++
      dumpFields (f2 :: r2)).length
    rw [String.length_append, String.length_append, String.length_append,
      String.length_append]
    have h1 : (": " : String).length = 2 := rfl
    have h3 : (", " : String).length = 2 := rfl
    have h2 := jsonQuote_length_ge k
    omega

theorem usageOf_pos_of_ne_nil (ctx : List (String × ContextEntry))
    (h : ctx ≠ []) : 1 ≤ usageOf ctx := by
  cases ctx with
  | nil => exact absurd rfl h
  | cons p rest =>
    show 1 ≤ (jsonDumpsDict (((p :: rest).map fun kv =>
      (kv.1, kv.2.value)))).length / 4
    rw [List.map_cons]
    have h4 : 4 ≤ (jsonDumpsDict ((p.1, p.2.value) ::
        rest.map fun kv => (kv.1, kv.2.value))).length := by
      show 4 ≤ ("\x7b" ++ dumpFields _ ++ "\x7d").length
      rw [String.length_append, String.length_append]
      have := dumpFields_length_ge (p.1, p.2.value)
        (rest.map fun kv => (kv.1, kv.2.value))
      omega
    omega

theorem alistSet_ne_nil {κ α : Type} [DecidableEq κ]
    (l : List (κ × α)) (k : κ) (v : α) : alistSet l k v ≠ [] := by
  cases l with
  | nil => simp [alistSet]
  | cons p rest =>
    obtain ⟨k1, v1⟩ := p
    by_cases h : k1 = k <;> simp [alistSet, h]

theorem set_eq_compress (m : ContextManager) (k : String) (v : Value)
    (rel : ℚ) (now : ℕ) :
    m.set k v rel now =
      (ContextManager.compress
        ⟨m.max_tokens,
         alistSet m.context k ⟨k, v, rel, now, 0⟩⟩).1 := by
  unfold ContextManager.set
  have h1 : 1 ≤ usageOf (alistSet m.context k ⟨k, v, rel, now, 0⟩) :=
    usageOf_pos_of_ne_nil _ (alistSet_ne_nil m.context k _)
  have h2 : ((ContextManager.get_token_usage
      ⟨m.max_tokens, alistSet m.context k ⟨k, v, rel, now, 0⟩⟩ : ℚ)) >
      compression_threshold := by
    show (_ : ℚ) > 3 / 4
    calc (3 / 4 : ℚ) < 1 := by norm_num
    _ ≤ _ := by exact_mod_cast h1
  rw [if_pos h2]

theorem evictLoop_evicted_prefix (maxT : ℕ) :
    ∀ stack ctx : List (String × ContextEntry),
      ∃ n, (evictLoop maxT ctx stack).2 = (stack.map Prod.fst).take n := by
  intro stack
  induction stack with
  | nil => intro ctx; exact ⟨0, rfl⟩
  | cons p rest ih =>
    intro ctx
    obtain ⟨k, e⟩ := p
    by_cases hg : (usageOf ctx : ℚ) > compression_threshold * maxT
    · obtain ⟨n, hn⟩ := ih (alistErase ctx k)
      refine ⟨n + 1, ?_⟩
      simp only [evictLoop, if_pos hg, List.map_cons, List.take_succ_cons]
      rw [hn]
    · refine ⟨0, ?_⟩
      rw [evictLoop_no_evict maxT ctx _ hg]
      rfl

theorem keyLex_trans {a b c : ℚ × ℕ} (h1 : keyLex a b) (h2 : keyLex b c) :
    keyLex a c := by
  rcases h1 with h1 | ⟨h1e, h1le⟩ <;> rcases h2 with h2 | ⟨h2e, h2le⟩
  · exact Or.inl (lt_trans h1 h2)
  · exact Or.inl (h2e ▸ h1)
  · exact Or.inl (h1e ▸ h2)
  · exact Or.inr ⟨h1e.trans h2e, le_trans h1le h2le⟩

theorem keyLex_total (a b : ℚ × ℕ) : keyLex a b ∨ keyLex b a := by
  rcases lt_trichotomy a.1 b.1 with h | h | h
  · exact Or.inl (Or.inl h)
  · rcases le_total a.2 b.2 with hle | hle
    · exact Or.inl (Or.inr ⟨h, hle⟩)
    · exact Or.inr (Or.inr ⟨h.symm, hle⟩)
  · exact Or.inr (Or.inl h)

theorem descLe_trans (a b c : String × ContextEntry)
    (h1 : descLe a b) (h2 : descLe b c) : descLe a c := by
  simp only [descLe, decide_eq_true_eq] at h1 h2 ⊢
  exact keyLex_trans h2 h1

theorem descLe_total (a b : String × ContextEntry) :
    descLe a b || descLe b a := by
  simp only [descLe]
  rcases keyLex_total (sortKey b) (sortKey a) with h | h <;> simp [h]

/-- C4.  The compression pass (i) evicts nothing when estimated usage
is already at or below `threshold × budget`; (ii) after any `set` call
(every `set` on a keyed store triggers compression, since any non-empty
store estimates at least one token, above the raw `0.75` trigger the
source compares against) the estimated usage is at or below
`threshold × budget` — eviction can always reach that bound because an
emptied store estimates zero; and (iii) the evicted keys form, in
eviction order, a prefix of an ordering of the entries that is sorted
by lowest `relevance_score × access_count` first with ties broken by
least-recent `last_accessed`. -/
theorem claim_C4 :
    (∀ m : ContextManager,
      ((m.get_token_usage : ℚ) ≤ compression_threshold * m.max_tokens) →
      m.compress.2 = []) ∧
    (∀ (m : ContextManager) (k : String) (v : Value) (rel : ℚ) (now : ℕ),
      (m.context.map Prod.fst).Nodup →
      (((m.set k v rel now).get_token_usage : ℚ) ≤
        compression_threshold * m.max_tokens)) ∧
    (∀ m : ContextManager,
      ∃ asc : List (String × ContextEntry),
        m.context.Perm asc ∧ asc.Pairwise entryLe ∧
        ∃ n, m.compress.2 = (asc.map Prod.fst).take n) := by
  refine ⟨?_, ?_, ?_⟩
  · intro m h
    show (evictLoop m.max_tokens m.context
      ((List.mergeSort m.context descLe).reverse)).2 = []
    rw [evictLoop_no_evict m.max_tokens m.context _ (not_lt.mpr h)]
  · intro m k v rel now hnd
    rw [set_eq_compress]
    exact compress_usage_le _ (alistSet_keys_nodup hnd)
  · intro m
    refine ⟨(List.mergeSort m.context descLe).reverse, ?_, ?_, ?_⟩
    · exact ((List.reverse_perm _).trans (List.mergeSort_perm _ _)).symm
    · have hs : (List.mergeSort m.context descLe).Pairwise
          (fun a b => descLe a b) :=
        List.sorted_mergeSort descLe_trans descLe_total m.context
      have hrev := List.pairwise_reverse.mpr hs
      refine hrev.imp ?_
      intro a b hab
      have hk : keyLex (sortKey a) (sortKey b) := of_decide_eq_true hab
      exact hk
    · exact evictLoop_evicted_prefix m.max_tokens _ m.context

/-- Witness for C4 at a concrete input: a `set` on the empty store
(whose key list is trivially duplicate-free) lands at or below
`threshold × budget`. -/
theorem claim_C4_witness :
    ((([] : List (String × ContextEntry)).map Prod.fst).Nodup) ∧
    (((ContextManager.set ⟨4000, []⟩ "notes" (.vStr "hello") 1
        0).get_token_usage : ℚ) ≤
      compression_threshold * (⟨4000, []⟩ : ContextManager).max_tokens) :=
  ⟨by decide, claim_C4.2.1 ⟨4000, []⟩ "notes" (.vStr "hello") 1 0 (by decide)⟩

/-! ## Claim C9: relevance decay across compression -/

theorem evictLoop_result_sublist (maxT : ℕ) :
    ∀ stack ctx : List (String × ContextEntry),
      ((evictLoop maxT ctx stack).1).Sublist ctx := by
  intro stack
  induction stack with
  | nil => intro ctx; exact List.Sublist.refl ctx
  | cons p rest ih =>
    intro ctx
    obtain ⟨k, e⟩ := p
    by_cases hg : (usageOf ctx : ℚ) > compression_threshold * maxT
    · have hstep : (evictLoop maxT ctx ((k, e) :: rest)).1 =
          (evictLoop maxT (alistErase ctx k) rest).1 := by
        simp only [evictLoop, if_pos hg]
      rw [hstep]
      exact (ih (alistErase ctx k)).trans (alistErase_sublist ctx k)
    · rw [evictLoop_no_evict maxT ctx _ hg]

/-- Evaluation helper: compressing a one-entry store whose usage is
within budget evicts nothing and decays the single score. -/
theorem compress_singleton (mt : ℕ) (k : String) (e : ContextEntry)
    (h : ¬ ((usageOf [(k, e)] : ℚ) > compression_threshold * mt)) :
    ContextManager.compress ⟨mt, [(k, e)]⟩ = (⟨mt, [decayPair (k, e)]⟩, []) := by
  unfold ContextManager.compress
  simp only [List.mergeSort_singleton, List.reverse_singleton,
    evictLoop_no_evict mt _ _ h]
  rfl

/-- C9 (amended).  For every entry that survives a compression pass and
whose relevance score is non-negative before the pass, the score after
the pass is at most the score before it; since the decay preserves
non-negativity, scores of surviving entries are non-increasing across
any sequence of compressions.  (The unamended claim fails for entries
whose score was set negative: multiplying by the decay factor moves a
negative score towards zero, increasing it.) -/
theorem claim_C9 :
    ∀ (m : ContextManager) (k : String) (e e2 : ContextEntry),
      (m.context.map Prod.fst).Nodup →
      m.context.lookup k = some e →
      m.compress.1.context.lookup k = some e2 →
      0 ≤ e.relevance_score →
      e2.relevance_score ≤ e.relevance_score := by
  intro m k e e2 hnd hk hk2 hpos
  have h1 : m.compress.1.context =
      ((evictLoop m.max_tokens m.context
        ((List.mergeSort m.context descLe).reverse)).1).map decayPair := rfl
  rw [h1] at hk2
  have h2 := lookup_map_valfn
    (evictLoop m.max_tokens m.context
      ((List.mergeSort m.context descLe).reverse)).1
    (fun en => { en with
      relevance_score := en.relevance_score * relevance_decay }) k
  have h3 := h2.symm.trans hk2
  rcases ho : (evictLoop m.max_tokens m.context
      ((List.mergeSort m.context descLe).reverse)).1.lookup k with _ | e1
  · rw [ho] at h3
    cases h3
  · rw [ho] at h3
    injection h3 with h3
    have hmem : (k, e1) ∈ m.context :=
      (evictLoop_result_sublist m.max_tokens _ m.context).subset
        (lookup_some_mem ho)
    have he1 : e1 = e := by
      have hlk := lookup_of_mem_nodup hnd hmem
      rw [hk] at hlk
      injection hlk with hv
      exact hv.symm
    subst he1
    rw [← h3]
    show e1.relevance_score * relevance_decay ≤ e1.relevance_score
    refine mul_le_of_le_one_right hpos ?_
    norm_num [relevance_decay]

/-- Counterexample to C9 as stated: in a one-entry store whose entry
was `set` with relevance `-1`, the entry survives compression (usage 2
is far below `0.75 × 4000`) and its relevance score strictly increases
from `-1` to `-0.95` under the multiplicative decay. -/
theorem claim_C9_counterexample :
    (([("a", (⟨"a", .vStr "x", -1, 0, 0⟩ : ContextEntry))] :
        List (String × ContextEntry)).lookup "a" =
      some (⟨"a", .vStr "x", -1, 0, 0⟩ : ContextEntry)) ∧
    ((ContextManager.compress
        ⟨4000, [("a", ⟨"a", .vStr "x", -1, 0, 0⟩)]⟩).1.context.lookup "a" =
      some (⟨"a", .vStr "x", -1 * relevance_decay, 0, 0⟩ : ContextEntry)) ∧
    ¬ ((⟨"a", .vStr "x", -1 * relevance_decay, 0, 0⟩ :
          ContextEntry).relevance_score ≤
        (⟨"a", .vStr "x", -1, 0, 0⟩ : ContextEntry).relevance_score) := by
  refine ⟨rfl, ?_, by norm_num [relevance_decay]⟩
  rw [compress_singleton 4000 "a" ⟨"a", .vStr "x", -1, 0, 0⟩ (by
    have hu : usageOf [("a", ⟨"a", .vStr "x", -1, 0, 0⟩)] = 2 := rfl
    rw [hu]
    norm_num [compression_threshold])]
  rfl

/-- Witness for C9 (amended) at a concrete input: a surviving entry
with relevance `1` decays to `0.95 ≤ 1`. -/
theorem claim_C9_witness :
    ((([("a", (⟨"a", .vStr "x", 1, 0, 0⟩ : ContextEntry))]).map
        Prod.fst).Nodup) ∧
    ((ContextManager.compress
        ⟨4000, [("a", ⟨"a", .vStr "x", 1, 0, 0⟩)]⟩).1.context.lookup "a" =
      some (⟨"a", .vStr "x", 1 * relevance_decay, 0, 0⟩ : ContextEntry)) ∧
    (0 ≤ (⟨"a", .vStr "x", 1, 0, 0⟩ : ContextEntry).relevance_score) ∧
    ((⟨"a", .vStr "x", 1 * relevance_decay, 0, 0⟩ :
        ContextEntry).relevance_score ≤
      (⟨"a", .vStr "x", 1, 0, 0⟩ : ContextEntry).relevance_score) := by
  have hc : (ContextManager.compress
      ⟨4000, [("a", ⟨"a", .vStr "x", 1, 0, 0⟩)]⟩).1.context.lookup "a" =
      some (⟨"a", .vStr "x", 1 * relevance_decay, 0, 0⟩ : ContextEntry) := by
    rw [compress_singleton 4000 "a" ⟨"a", .vStr "x", 1, 0, 0⟩ (by
      have hu : usageOf [("a", ⟨"a", .vStr "x", 1, 0, 0⟩)] = 2 := rfl
      rw [hu]
      norm_num [compression_threshold])]
    rfl
  refine ⟨by decide, hc, by norm_num, ?_⟩
  exact claim_C9 ⟨4000, [("a", ⟨"a", .vStr "x", 1, 0, 0⟩)]⟩ "a"
    ⟨"a", .vStr "x", 1, 0, 0⟩ ⟨"a", .vStr "x", 1 * relevance_decay, 0, 0⟩
    (by decide) rfl hc (by norm_num)

/-! ## Scheduler correctness (claims C1, C2, C3) -/

theorem mem_getD_flatten (ws : List (List Task)) (t : Task) :
    t ∈ ws.flatten ↔ ∃ i, i < ws.length ∧ t ∈ ws.getD i [] := by
  induction ws with
  | nil => simp
  | cons w ws ihw =>
    rw [List.flatten_cons, List.mem_append]
    constructor
    · rintro (hw | hf)
      · exact ⟨0, Nat.succ_pos _, hw⟩
      · obtain ⟨i, hi, hti⟩ := ihw.mp hf
        exact ⟨i + 1, Nat.succ_lt_succ hi, hti⟩
    · rintro ⟨i, hi, hti⟩
      cases i with
      | zero => exact Or.inl hti
      | succ i => exact Or.inr (ihw.mpr ⟨i, Nat.lt_of_succ_lt_succ hi, hti⟩)

/-- Pigeonhole: in a finite batch where every task has an in-batch
dependency, some task depends on itself through the dependency
relation. -/
theorem hasCycle_of_forall_succ (R : List Task) (hne : R ≠ [])
    (hsucc : ∀ t ∈ R, ∃ u ∈ R, u.id ∈ t.dependencies) : HasCycle R := by
  classical
  obtain ⟨t0, ht0⟩ := List.exists_mem_of_ne_nil R hne
  choose f hmem hdep using hsucc
  let F : Task → Task := fun t => if h : t ∈ R then f t h else t0
  have hFmem : ∀ t ∈ R, F t ∈ R := by
    intro t ht
    simp only [F, dif_pos ht]
    exact hmem t ht
  have hFstep : ∀ t, t ∈ R → depStep R t (F t) := by
    intro t ht
    simp only [F, dif_pos ht]
    exact ⟨hmem t ht, hdep t ht⟩
  have hseq : ∀ n, F^[n] t0 ∈ R := by
    intro n
    induction n with
    | zero => simpa using ht0
    | succ n ihn =>
      rw [Function.iterate_succ_apply']
      exact hFmem _ ihn
  have hstepn : ∀ n, depStep R (F^[n] t0) (F^[n + 1] t0) := by
    intro n
    rw [Function.iterate_succ_apply']
    exact hFstep _ (hseq n)
  have hchain : ∀ m k,
      Relation.TransGen (depStep R) (F^[m] t0) (F^[m + k + 1] t0) := by
    intro m k
    induction k with
    | zero => exact Relation.TransGen.single (hstepn m)
    | succ k ihk =>
      have harith : m + (k + 1) + 1 = (m + k + 1) + 1 := by omega
      rw [harith]
      exact Relation.TransGen.tail ihk (hstepn (m + k + 1))
  have hcard : R.toFinset.card < (Finset.range (R.length + 1)).card := by
    rw [Finset.card_range]
    exact Nat.lt_succ_of_le (List.toFinset_card_le R)
  obtain ⟨i, hi, j, hj, hne2, heq⟩ :=
    Finset.exists_ne_map_eq_of_card_lt_of_maps_to hcard
      (fun n _ => List.mem_toFinset.mpr (hseq n))
  rcases lt_or_gt_of_ne hne2 with hlt | hlt
  · refine ⟨F^[i] t0, hseq i, ?_⟩
    have hh := hchain i (j - i - 1)
    have harith : i + (j - i - 1) + 1 = j := by omega
    rw [harith] at hh
    rw [← heq] at hh
    exact hh
  · refine ⟨F^[j] t0, hseq j, ?_⟩
    have hh := hchain j (i - j - 1)
    have harith : j + (i - j - 1) + 1 = i := by omega
    rw [harith] at hh
    rw [heq] at hh
    exact hh

/-- Soundness of the wave loop: a successful run partitions the
remaining tasks (as a multiset) and places every dependency either in
the incoming completed set or in an earlier wave. -/
theorem wavesGo_sound :
    ∀ (fuel : ℕ) (completed : List String) (remaining : List Task)
      (ws : List (List Task)),
      wavesGo fuel completed remaining = .ok ws →
      ws.flatten.Perm remaining ∧ RespectRel completed ws := by
  intro fuel
  induction fuel with
  | zero =>
    intro completed remaining ws h
    cases remaining with
    | nil =>
      rw [show wavesGo 0 completed [] = .ok [] from rfl] at h
      injection h with h
      subst h
      exact ⟨List.Perm.refl _, fun i hi => absurd hi (by simp)⟩
    | cons t0 rest => exact Except.noConfusion h
  | succ fuel ih =>
    intro completed remaining ws h
    cases remaining with
    | nil =>
      rw [show wavesGo (fuel + 1) completed [] = .ok [] from rfl] at h
      injection h with h
      subst h
      exact ⟨List.Perm.refl _, fun i hi => absurd hi (by simp)⟩
    | cons t0 rest =>
      simp only [wavesGo] at h
      by_cases hw : (t0 :: rest).filter (depsDone completed) = []
      · rw [if_pos hw] at h
        exact Except.noConfusion h
      · rw [if_neg hw] at h
        rcases hrec : wavesGo fuel
            (completed ++ ((t0 :: rest).filter (depsDone completed)).map Task.id)
            ((t0 :: rest).filter fun t =>
              !decide (t ∈ (t0 :: rest).filter (depsDone completed)))
          with e | ws2
        · rw [hrec] at h
          exact Except.noConfusion h
        · rw [hrec] at h
          injection h with h
          subst h
          obtain ⟨hperm, hresp⟩ := ih _ _ _ hrec
          constructor
          · show ((t0 :: rest).filter (depsDone completed) ++
              ws2.flatten).Perm (t0 :: rest)
            have hfc : ((t0 :: rest).filter fun t =>
                !decide (t ∈ (t0 :: rest).filter (depsDone completed))) =
                ((t0 :: rest).filter fun t => !(depsDone completed t)) := by
              apply List.filter_congr
              intro t ht
              by_cases hd : depsDone completed t = true
              · have htw : t ∈ (t0 :: rest).filter (depsDone completed) :=
                  List.mem_filter.mpr ⟨ht, hd⟩
                simp [htw, hd]
              · have htw : t ∉ (t0 :: rest).filter (depsDone completed) :=
                  fun hc => hd (List.mem_filter.mp hc).2
                simp [htw, hd]
            rw [hfc] at hperm
            exact (List.Perm.append_left _ hperm).trans
              (List.filter_append_perm _ _)
          · intro i hi t ht d hd
            cases i with
            | zero =>
              have htw : t ∈ (t0 :: rest).filter (depsDone completed) := ht
              have hall := (List.mem_filter.mp htw).2
              have hdc := List.all_eq_true.mp hall d hd
              exact Or.inl (of_decide_eq_true hdc)
            | succ i =>
              have hi2 : i < ws2.length := Nat.lt_of_succ_lt_succ hi
              have ht2 : t ∈ ws2.getD i [] := ht
              rcases hresp i hi2 t ht2 d hd with hc | ⟨j, hj, u, hu, hid⟩
              · rcases List.mem_append.mp hc with h1 | h2
                · exact Or.inl h1
                · rcases List.mem_map.mp h2 with ⟨u, hu, hid⟩
                  exact Or.inr ⟨0, Nat.succ_pos _, u, hu, hid⟩
              · exact Or.inr ⟨j + 1, Nat.succ_lt_succ hj, u, hu, hid⟩

/-- Completeness of the wave loop: with enough fuel, a batch whose
dependencies are all resolvable (relative to the already-completed ids)
and whose in-batch dependency relation is acyclic is fully layered. -/
theorem wavesGo_complete :
    ∀ (fuel : ℕ) (completed : List String) (remaining : List Task),
      remaining.length ≤ fuel →
      (∀ t ∈ remaining, ∀ d ∈ t.dependencies,
        d ∈ completed ∨ d ∈ remaining.map Task.id) →
      ¬ HasCycle remaining →
      ∃ ws, wavesGo fuel completed remaining = .ok ws := by
  intro fuel
  induction fuel with
  | zero =>
    intro completed remaining hlen _ _
    have hnil : remaining = [] := List.length_eq_zero.mp (Nat.le_zero.mp hlen)
    subst hnil
    exact ⟨[], rfl⟩
  | succ fuel ih =>
    intro completed remaining hlen hclosed hnc
    cases remaining with
    | nil => exact ⟨[], rfl⟩
    | cons t0 rest =>
      have hw : (t0 :: rest).filter (depsDone completed) ≠ [] := by
        intro hempty
        have hsucc : ∀ t ∈ (t0 :: rest),
            ∃ u ∈ (t0 :: rest), u.id ∈ t.dependencies := by
          intro t ht
          have hnotall : ¬ (depsDone completed t = true) := by
            intro hall
            have hmem : t ∈ (t0 :: rest).filter (depsDone completed) :=
              List.mem_filter.mpr ⟨ht, hall⟩
            rw [hempty] at hmem
            exact List.not_mem_nil t hmem
          unfold depsDone at hnotall
          rw [List.all_eq_true] at hnotall
          push_neg at hnotall
          obtain ⟨d, hd, hdc⟩ := hnotall
          have hdc2 : d ∉ completed := fun hh => hdc (decide_eq_true hh)
          rcases hclosed t ht d hd with hc | hm
          · exact absurd hc hdc2
          · rcases List.mem_map.mp hm with ⟨u, hu, hid⟩
            exact ⟨u, hu, hid ▸ hd⟩
        exact hnc (hasCycle_of_forall_succ _ (List.cons_ne_nil t0 rest) hsucc)
      have hlt : ((t0 :: rest).filter fun t =>
          !decide (t ∈ (t0 :: rest).filter (depsDone completed))).length <
          (t0 :: rest).length := by
        rcases List.exists_mem_of_ne_nil _ hw with ⟨w0, hw0⟩
        exact length_filter_lt_of_mem (List.mem_filter.mp hw0).1 (by simp [hw0])
      have hlen2 : ((t0 :: rest).filter fun t =>
          !decide (t ∈ (t0 :: rest).filter (depsDone completed))).length ≤
          fuel := by
        have := hlen
        simp only [List.length_cons] at this
        omega
      have hcl2 : ∀ t ∈ ((t0 :: rest).filter fun t =>
          !decide (t ∈ (t0 :: rest).filter (depsDone completed))),
          ∀ d ∈ t.dependencies,
          d ∈ (completed ++
            ((t0 :: rest).filter (depsDone completed)).map Task.id) ∨
          d ∈ ((t0 :: rest).filter fun t =>
            !decide (t ∈ (t0 :: rest).filter (depsDone completed))).map
              Task.id := by
        intro t ht d hd
        have htR : t ∈ (t0 :: rest) := (List.mem_filter.mp ht).1
        rcases hclosed t htR d hd with hc | hm
        · exact Or.inl (List.mem_append.mpr (Or.inl hc))
        · rcases List.mem_map.mp hm with ⟨u, hu, hid⟩
          by_cases huw : u ∈ (t0 :: rest).filter (depsDone completed)
          · exact Or.inl (List.mem_append.mpr
              (Or.inr (List.mem_map.mpr ⟨u, huw, hid⟩)))
          · refine Or.inr (List.mem_map.mpr ⟨u, ?_, hid⟩)
            exact List.mem_filter.mpr ⟨hu, by simp [huw]⟩
      have hnc2 : ¬ HasCycle ((t0 :: rest).filter fun t =>
          !decide (t ∈ (t0 :: rest).filter (depsDone completed))) := by
        rintro ⟨t, ht, htg⟩
        refine hnc ⟨t, (List.mem_filter.mp ht).1, ?_⟩
        refine Relation.TransGen.mono ?_ htg
        intro a b hab
        exact ⟨(List.mem_filter.mp hab.1).1, hab.2⟩
      obtain ⟨ws2, hws2⟩ := ih
        (completed ++ ((t0 :: rest).filter (depsDone completed)).map Task.id)
        ((t0 :: rest).filter fun t =>
          !decide (t ∈ (t0 :: rest).filter (depsDone completed)))
        hlen2 hcl2 hnc2
      refine ⟨(t0 :: rest).filter (depsDone completed) :: ws2, ?_⟩
      simp only [wavesGo]
      rw [if_neg hw, hws2]
      rfl

/-- The only error the wave loop ever raises is the cyclic-dependency
`ValueError`. -/
theorem wavesGo_error_eq :
    ∀ (fuel : ℕ) (completed : List String) (remaining : List Task)
      (e : String),
      wavesGo fuel completed remaining = .error e →
      e = "Circular dependency detected" := by
  intro fuel
  induction fuel with
  | zero =>
    intro c r e h
    cases r with
    | nil => exact Except.noConfusion h
    | cons t0 rest =>
      injection h with h
      exact h.symm
  | succ fuel ih =>
    intro c r e h
    cases r with
    | nil => exact Except.noConfusion h
    | cons t0 rest =>
      simp only [wavesGo] at h
      by_cases hw : (t0 :: rest).filter (depsDone c) = []
      · rw [if_pos hw] at h
        injection h with h
        exact h.symm
      · rw [if_neg hw] at h
        rcases hrec : wavesGo fuel
            (c ++ ((t0 :: rest).filter (depsDone c)).map Task.id)
            ((t0 :: rest).filter fun t =>
              !decide (t ∈ (t0 :: rest).filter (depsDone c)))
          with e2 | ws2
        · rw [hrec] at h
          injection h with h
          exact h ▸ ih _ _ _ hrec
        · rw [hrec] at h
          exact Except.noConfusion h

/-- With all dependencies in the batch and no cycle, the scheduler
succeeds. -/
theorem waves_ok_of_acyclic (tasks : List Task) (hcl : ClosedDeps tasks)
    (hnc : ¬ HasCycle tasks) : ∃ ws, calculate_waves tasks = .ok ws :=
  wavesGo_complete tasks.length [] tasks le_rfl
    (fun t ht d hd => Or.inr (hcl t ht d hd)) hnc

/-- A successful scheduling run certifies that every dependency id was
in the batch. -/
theorem waves_ok_closed (tasks : List Task) (ws : List (List Task))
    (h : calculate_waves tasks = .ok ws) : ClosedDeps tasks := by
  obtain ⟨hperm, hresp⟩ := wavesGo_sound tasks.length [] tasks ws h
  intro t ht d hd
  have htf : t ∈ ws.flatten := hperm.mem_iff.mpr ht
  obtain ⟨i, hi, hti⟩ := (mem_getD_flatten ws t).mp htf
  rcases hresp i hi t hti d hd with hc | ⟨j, hj, u, hu, hid⟩
  · exact absurd hc (List.not_mem_nil d)
  · have huf : u ∈ ws.flatten :=
      (mem_getD_flatten ws u).mpr ⟨j, lt_trans hj hi, hu⟩
    have hut : u ∈ tasks := hperm.mem_iff.mp huf
    exact hid ▸ List.mem_map_of_mem Task.id hut

/-- A successful scheduling run on a batch with unique ids certifies
that the dependency relation has no cycle. -/
theorem waves_ok_no_cycle (tasks : List Task) (ws : List (List Task))
    (hnd : NodupIds tasks) (h : calculate_waves tasks = .ok ws) :
    ¬ HasCycle tasks := by
  obtain ⟨hperm, hresp⟩ := wavesGo_sound tasks.length [] tasks ws h
  have hndf : (ws.flatten.map Task.id).Nodup :=
    ((hperm.map Task.id).nodup_iff).mpr hnd
  have hlow : ∀ t u, depStep tasks t u → ∀ i, i < ws.length →
      t ∈ ws.getD i [] → ∃ j, j < i ∧ u ∈ ws.getD j [] := by
    intro t u hstep i hi hti
    rcases hresp i hi t hti u.id hstep.2 with hc | ⟨j, hj, u2, hu2, hid⟩
    · exact absurd hc (List.not_mem_nil _)
    · have hu2f : u2 ∈ ws.flatten :=
        (mem_getD_flatten ws u2).mpr ⟨j, lt_trans hj hi, hu2⟩
      have huf : u ∈ ws.flatten := hperm.mem_iff.mpr hstep.1
      have hu2u : u2 = u :=
        List.inj_on_of_nodup_map hndf hu2f huf hid
      exact ⟨j, hj, hu2u ▸ hu2⟩
  have htrans : ∀ t u, Relation.TransGen (depStep tasks) t u →
      ∀ i, i < ws.length → t ∈ ws.getD i [] →
      ∃ j, j < i ∧ u ∈ ws.getD j [] := by
    intro t u htg
    induction htg with
    | single hstep => exact hlow _ _ hstep
    | tail htb hbu ihtb =>
      intro i hi hti
      obtain ⟨j, hj, hbj⟩ := ihtb i hi hti
      obtain ⟨k2, hk2, huk⟩ := hlow _ _ hbu j (lt_trans hj hi) hbj
      exact ⟨k2, lt_trans hk2 hj, huk⟩
  rintro ⟨t, ht, htg⟩
  have htf : t ∈ ws.flatten := hperm.mem_iff.mpr ht
  obtain ⟨i0, hi0, hti0⟩ := (mem_getD_flatten ws t).mp htf
  have hdesc : ∀ i, i < ws.length → t ∉ ws.getD i [] := by
    intro i
    induction i using Nat.strong_induction_on with
    | _ i ihw =>
      intro hi hti
      obtain ⟨j, hj, htj⟩ := htrans t t htg i hi hti
      exact ihw j hj (lt_trans hj hi) htj
  exact hdesc i0 hi0 hti0

theorem hookGate_some_failed (hooks : Option (Value → Value))
    (t1 tf : Task) (h : hookGate hooks t1 = .ok (some tf)) :
    tf.status = .failed := by
  unfold hookGate at h
  by_cases hrole : t1.role = "tech_lead"
  · rw [if_pos hrole] at h
    cases hooks with
    | none => simp at h
    | some r =>
      dsimp only at h
      rcases hs : (r (.vStr t1.action)).dictGet "success" with _ | s
      · rw [hs] at h
        exact Except.noConfusion h
      · rw [hs] at h
        dsimp only at h
        by_cases htr : s.isTruthy = true
        · rw [if_pos htr] at h
          simp at h
        · rw [if_neg htr] at h
          rcases he : (r (.vStr t1.action)).dictGet "error" with _ | ev
          · rw [he] at h
            exact Except.noConfusion h
          · rw [he] at h
            injection h with h
            injection h with h
            rw [← h]
  · rw [if_neg hrole] at h
    simp at h

theorem execute_task_terminal (hooks : Option (Value → Value)) (t : Task) :
    (execute_task hooks t).1.status = .completed ∨
    (execute_task hooks t).1.status = .failed := by
  cases hg : hookGate hooks { t with status := .running } with
  | error e =>
    right
    simp [execute_task, hg]
  | ok o =>
    cases o with
    | none =>
      cases hr : execute_by_role hooks { t with status := .running } with
      | ok v =>
        left
        simp [execute_task, hg, hr]
      | error e =>
        right
        simp [execute_task, hg, hr]
    | some tf =>
      right
      have hf := hookGate_some_failed hooks _ tf hg
      simp [execute_task, hg, hf]

theorem runWaves_results (hooks : Option (Value → Value)) :
    ∀ (ws : List (List Task)) (i : ℕ),
      (runWaves hooks i ws).1 =
        ws.flatten.map fun t => (execute_task hooks t).1 := by
  intro ws
  induction ws with
  | nil => intro i; rfl
  | cons w ws ihw =>
    intro i
    show ((w.map fun t => (execute_task hooks t).1) ++
        (runWaves hooks (i + 1) ws).1) =
      ((w ++ ws.flatten).map fun t => (execute_task hooks t).1)
    rw [List.map_append, ihw]

/-! ## Claims C1, C2, C3 -/

/-- C1.  For every task batch whose dependency ids all resolve within
the batch and whose dependency relation is acyclic, `calculate_waves`
succeeds with a partition of the batch: the concatenation of the waves
is a permutation of the input (every task in exactly one wave), and
every dependency of a task is the id of a task in a strictly earlier
wave.  In particular the specification's example — A (no deps),
B (dep A), C (dep A), D (deps B, C) — yields `[[A], [B, C], [D]]`. -/
theorem claim_C1 :
    (∀ tasks : List Task, ClosedDeps tasks → ¬ HasCycle tasks →
      ∃ ws, calculate_waves tasks = .ok ws ∧ ws.flatten.Perm tasks ∧
        WavesRespectDeps ws) ∧
    calculate_waves [taskA, taskB, taskC, taskD] =
      .ok [[taskA], [taskB, taskC], [taskD]] := by
  constructor
  · intro tasks hcl hnc
    obtain ⟨ws, hws⟩ := waves_ok_of_acyclic tasks hcl hnc
    obtain ⟨hperm, hresp⟩ := wavesGo_sound tasks.length [] tasks ws hws
    refine ⟨ws, hws, hperm, ?_⟩
    intro i hi t ht d hd
    rcases hresp i hi t ht d hd with hc | hrest
    · exact absurd hc (List.not_mem_nil d)
    · exact hrest
  · rfl

/-- Witness for C1 at the specification's example batch (its
acyclicity is certified by the successful run itself through
`waves_ok_no_cycle`). -/
theorem claim_C1_witness :
    ClosedDeps [taskA, taskB, taskC, taskD] ∧
    (∃ ws, calculate_waves [taskA, taskB, taskC, taskD] = .ok ws ∧
      ws.flatten.Perm [taskA, taskB, taskC, taskD] ∧ WavesRespectDeps ws) :=
  ⟨by decide,
   claim_C1.1 [taskA, taskB, taskC, taskD] (by decide)
     (waves_ok_no_cycle [taskA, taskB, taskC, taskD]
       [[taskA], [taskB, taskC], [taskD]] (by decide) rfl)⟩

/-- C2.  On a batch (with unique ids) whose dependency relation is
cyclic or references an id missing from the batch, `calculate_waves`
raises exactly the cyclic-dependency `ValueError`, and `execute_wave`
aborts before any task starts: it returns the same error, no task is
touched (the embedding is pure and the error carries no task), and the
emitted event list is empty. -/
theorem claim_C2 :
    ∀ (tasks : List Task) (hooks : Option (Value → Value)),
      NodupIds tasks → (HasCycle tasks ∨ ¬ ClosedDeps tasks) →
      calculate_waves tasks = .error "Circular dependency detected" ∧
      execute_wave hooks tasks =
        (.error "Circular dependency detected", []) := by
  intro tasks hooks hnd hbad
  have herr : calculate_waves tasks = .error "Circular dependency detected" := by
    rcases hok : calculate_waves tasks with e | ws
    · have he := wavesGo_error_eq tasks.length [] tasks e hok
      rw [he]
    · exfalso
      rcases hbad with hcyc | hncl
      · exact waves_ok_no_cycle tasks ws hnd hok hcyc
      · exact hncl (waves_ok_closed tasks ws hok)
  refine ⟨herr, ?_⟩
  unfold execute_wave
  rw [herr]

/-- Witness for C2 at the specification's example scenario 2: the
two-task cycle A↔B. -/
theorem claim_C2_witness :
    NodupIds [cycTaskA, cycTaskB] ∧ HasCycle [cycTaskA, cycTaskB] ∧
    (calculate_waves [cycTaskA, cycTaskB] =
        .error "Circular dependency detected" ∧
     execute_wave none [cycTaskA, cycTaskB] =
        (.error "Circular dependency detected", [])) := by
  have hAB : depStep [cycTaskA, cycTaskB] cycTaskA cycTaskB :=
    ⟨by decide, by decide⟩
  have hBA : depStep [cycTaskA, cycTaskB] cycTaskB cycTaskA :=
    ⟨by decide, by decide⟩
  have hcyc : HasCycle [cycTaskA, cycTaskB] :=
    ⟨cycTaskA, by decide,
     Relation.TransGen.head hAB (Relation.TransGen.single hBA)⟩
  exact ⟨by decide, hcyc, claim_C2 _ none (by decide) (Or.inl hcyc)⟩

/-- C3.  On every acyclic (dependency-closed) batch, `execute_wave`
returns exactly one terminal result (Completed or Failed) per input
task — the result list is a permutation of the input tasks each pushed
through `execute_task`, so its length equals the input count — and no
individual failure cancels a sibling or a later wave: every task's
result appears regardless of every other task's outcome. -/
theorem claim_C3 :
    ∀ (hooks : Option (Value → Value)) (tasks : List Task),
      ClosedDeps tasks → ¬ HasCycle tasks →
      ∃ results evs,
        execute_wave hooks tasks = (.ok results, evs) ∧
        results.length = tasks.length ∧
        (∀ r ∈ results, r.status = .completed ∨ r.status = .failed) ∧
        results.Perm (tasks.map fun t => (execute_task hooks t).1) := by
  intro hooks tasks hcl hnc
  obtain ⟨ws, hws⟩ := waves_ok_of_acyclic tasks hcl hnc
  obtain ⟨hperm, _⟩ := wavesGo_sound tasks.length [] tasks ws hws
  refine ⟨(runWaves hooks 1 ws).1, (runWaves hooks 1 ws).2, ?_, ?_, ?_, ?_⟩
  · unfold execute_wave
    rw [hws]
  · rw [runWaves_results]
    rw [List.length_map, hperm.length_eq]
  · intro r hr
    rw [runWaves_results] at hr
    rcases List.mem_map.mp hr with ⟨t, _, rfl⟩
    exact execute_task_terminal hooks t
  · rw [runWaves_results]
    exact hperm.map _

/-- Witness for C3 at the specification's example scenario 5: a
three-task wave whose middle task has an unknown role and fails. -/
theorem claim_C3_witness :
    ClosedDeps [waveTask1, waveTask2, waveTask3] ∧
    ∃ results evs,
      execute_wave none [waveTask1, waveTask2, waveTask3] =
        (.ok results, evs) ∧
      results.length = [waveTask1, waveTask2, waveTask3].length ∧
      (∀ r ∈ results, r.status = .completed ∨ r.status = .failed) ∧
      results.Perm ([waveTask1, waveTask2, waveTask3].map
        fun t => (execute_task none t).1) :=
  ⟨by decide,
   claim_C3 none [waveTask1, waveTask2, waveTask3] (by decide)
     (waves_ok_no_cycle [waveTask1, waveTask2, waveTask3]
       [[waveTask1, waveTask2, waveTask3]] (by decide) rfl)⟩

end Squad
